import Mathlib

/-!
Shallow embedding of the SGD corpus-analysis tooling
(`_generate_metadata.py`, `data_utils.py`, `sgd_utils/dialogue_utils.py`,
`print_utils.py`) and proofs about the claims of its specification.

Python dictionaries are modelled as insertion-ordered association lists
(`List (String × α)`), Python sets as duplicate-free lists (`List String`,
with the set operations defined below), and fallible Python code (raised
exceptions) as `Except PyErr`.
-/

namespace SGD

/-- Python exception outcomes that the modelled code can raise. -/
inductive PyErr where
  | valueError (msg : String)
  | indexError
  | runtimeError
  | fileNotFound
deriving DecidableEq, Repr

/-! ## Data model (corpus records, from the SGD json formats read by the code) -/

/-- One element of a frame's `actions` list (see `print_utils.get_actions` docstring). -/
structure ActionDict where
  act : String
  slot : String
  values : List String
  canonical_values : List String
deriving DecidableEq, Repr

/-- One element of a frame's `slots` list: a slot mention with its value span. -/
structure SlotMention where
  slot : String
  start : Nat
  exclusive_end : Nat
deriving DecidableEq, Repr

/-- A frame's `service_call` record: `{'method': ..., 'parameters': ...}`. -/
structure ServiceCall where
  method : String
  parameters : List (String × String)
deriving DecidableEq, Repr

/-- A user frame's `state` dictionary. -/
structure FrameState where
  active_intent : String
  requested_slots : List String
  slot_values : List (String × List String)
deriving DecidableEq, Repr

/-- A frame of a turn.  `service_call` is `none` when the Python dict lacks the
`'service_call'` key; `service_results` models the `'service_results'` list of
retrieved entities (each an attribute/value record). -/
structure Frame where
  service : String
  state : FrameState
  slots : List SlotMention
  actions : List ActionDict
  service_call : Option ServiceCall
  service_results : List (List (String × String))
deriving DecidableEq, Repr

inductive Speaker where
  | USER
  | SYSTEM
deriving DecidableEq, Repr

structure Turn where
  speaker : Speaker
  utterance : String
  frames : List Frame
deriving DecidableEq, Repr

structure Dialogue where
  dialogue_id : String
  services : List String
  turns : List Turn
deriving DecidableEq, Repr

/-- An intent entry of a service schema. -/
structure SchemaIntent where
  name : String
  is_transactional : Bool
deriving DecidableEq, Repr

/-- A slot entry of a service schema. -/
structure SchemaSlot where
  name : String
  is_categorical : Bool
  possible_values : List String
deriving DecidableEq, Repr

/-- A service schema. -/
structure Service where
  service_name : String
  intents : List SchemaIntent
  slots : List SchemaSlot
deriving DecidableEq, Repr

/-- One `dialogues_XXX.json` file: its path and its list of dialogues. -/
structure DialFile where
  path : String
  dialogues : List Dialogue
deriving DecidableEq, Repr

inductive SplitName where
  | train
  | test
  | dev
deriving DecidableEq, Repr, Fintype

def SplitName.str : SplitName → String
  | .train => "train"
  | .test => "test"
  | .dev => "dev"

/-- The corpus on disk: per split, the schema file's services and the dialogue files. -/
structure Corpus where
  schemas : SplitName → List Service
  files : SplitName → List DialFile

/-- `data_utils._SPLIT_NAMES = ['train', 'test', 'dev']` (order used by `corpus_iterator`). -/
def SPLIT_NAMES_data : List SplitName := [.train, .test, .dev]

/-- `_generate_metadata._SPLIT_NAMES = ['train', 'dev', 'test']`. -/
def SPLIT_NAMES_meta : List SplitName := [.train, .dev, .test]

/-! ## Python set operations, on duplicate-free insertion-ordered lists -/

/-- Python `s.add(x)`. -/
def pyInsert (s : List String) (x : String) : List String :=
  if x ∈ s then s else s ++ [x]

/-- Python `set(l)`. -/
def pySetOf (l : List String) : List String :=
  l.foldl pyInsert []

/-- Python `s.update(t)` / `s | t`. -/
def pyUnion (s t : List String) : List String :=
  t.foldl pyInsert s

/-- Python `s.intersection(t)` (elements of `s` also in `t`). -/
def pyInter (s t : List String) : List String :=
  s.filter (fun x => x ∈ t)

/-- Python `s.issubset(t)` (`t` may be any container, so a plain list works). -/
def pySubset (s t : List String) : Bool :=
  s.all (fun x => x ∈ t)

/-- Python `==` on sets: extensional equality. -/
def pySetEq (s t : List String) : Bool :=
  pySubset s t && pySubset t s

/-! ## Association-list helpers (Python insertion-ordered dicts) -/

/-- Dict lookup `m[k]` (as an `Option`, without defaultdict creation). -/
def alGet {α : Type} (m : List (String × α)) (k : String) : Option α :=
  (m.find? (fun p => p.1 == k)).map (fun p => p.2)

/-- Dict update: apply `f` to the value at `k`, creating `k` (from default `dflt`,
at the end, as Python dict insertion order does) when absent.  This models both
plain assignment (`f` constant) and `defaultdict` mutation. -/
def alUpd {α : Type} (m : List (String × α)) (k : String) (dflt : α) (f : α → α) :
    List (String × α) :=
  match m with
  | [] => [(k, f dflt)]
  | (k', v) :: rest => if k' = k then (k', f v) :: rest else (k', v) :: alUpd rest k dflt f

/-- Dict assignment `m[k] = v`. -/
def alSet {α : Type} (m : List (String × α)) (k : String) (v : α) : List (String × α) :=
  alUpd m k v (fun _ => v)

/-- Nested dict lookup `m[k1][k2]`. -/
def alGet2 {α : Type} (m : List (String × List (String × α))) (k1 k2 : String) : Option α :=
  match alGet m k1 with
  | none => none
  | some inner => alGet inner k2

/-! ## Python primitive helpers -/

/-- Python `s.isdigit()` for ASCII content. -/
def pyIsDigit (s : String) : Bool :=
  !s.toList.isEmpty && s.toList.all Char.isDigit

/-- The numeric value of a decimal digit string (`int(s)` when `s.isdigit()`). -/
def digitsToNat (s : String) : Nat :=
  s.toList.foldl (fun n c => n * 10 + (c.toNat - '0'.toNat)) 0

/-- Python `int(s)` for the (nonnegative decimal) strings the code feeds it;
raises `ValueError` on anything else, like Python. -/
def pyIntNat (s : String) : Except PyErr Nat :=
  if pyIsDigit s then .ok (digitsToNat s) else .error (.valueError "invalid literal for int()")

/-- Python `s.split(sep)` for a one-character separator, on character lists. -/
def pySplitCharAux (sep : Char) : List Char → List (List Char)
  | [] => [[]]
  | c :: rest =>
    match pySplitCharAux sep rest with
    | [] => [[]]
    | h :: t => if c = sep then [] :: h :: t else (c :: h) :: t

/-- Python `s.split(sep)` for a one-character separator (the only shapes the
code uses: `'_'` and `'/'`). -/
def pySplitChar (sep : Char) (s : String) : List String :=
  (pySplitCharAux sep s.toList).map String.mk

/-- Python `s.split('_')[i]` (an `IndexError` when there are not enough parts). -/
def pySplitIdx (s : String) (sep : Char) (i : Nat) : Except PyErr String :=
  match (pySplitChar sep s)[i]? with
  | some part => .ok part
  | none => .error .indexError

/-- Python `' '.join(l)`. -/
def pyJoinSpace (l : List String) : String :=
  String.intercalate " " l

/-- Stable insertion into a sorted list: `x` goes after every element `y` with
`le y x`.  Together with `stableSort` this reproduces the output of Python's
stable `sort`/`sorted`. -/
def stableInsert {α : Type} (le : α → α → Bool) (x : α) : List α → List α
  | [] => [x]
  | y :: ys => if le y x then y :: stableInsert le x ys else x :: y :: ys

/-- Stable sort (insertion sort); agrees with any stable sort such as Python's. -/
def stableSort {α : Type} (le : α → α → Bool) (l : List α) : List α :=
  l.foldl (fun acc x => stableInsert le x acc) []

/-- `data_utils.alphabetical_sort_key` with the default `n_chars = 10`. -/
def alphabetical_sort_key (name : String) : String :=
  String.mk (name.toList.take 10)

/-- Lexicographic `<=` on code-point lists (Python string comparison). -/
def charListLe : List Char → List Char → Bool
  | [], _ => true
  | _ :: _, [] => false
  | a :: as, b :: bs => if a = b then charListLe as bs else decide (a < b)

/-- Python `a <= b` on strings. -/
def strLe (a b : String) : Bool :=
  charListLe a.toList b.toList

/-- Python `sorted(l, key=alphabetical_sort_key)`. -/
def pySortedAlpha (l : List String) : List String :=
  stableSort (fun a b => strLe (alphabetical_sort_key a) (alphabetical_sort_key b)) l

/-- `data_utils.dial_sort_key`: split the dialogue ID at `'_'` into exactly two
integer components (Python's tuple unpacking raises on any other shape). -/
def dial_sort_key (dialogue_id : String) : Except PyErr (Nat × Nat) :=
  match pySplitChar '_' dialogue_id with
  | [s1, s2] => do
    let n1 ← pyIntNat s1
    let n2 ← pyIntNat s2
    .ok (n1, n2)
  | _ => .error (.valueError "not enough values to unpack")

/-- Python tuple comparison on the `(Nat × Nat)` keys: lexicographic. -/
def dialKeyLe (a b : Nat × Nat) : Bool :=
  a.1 < b.1 || (a.1 = b.1 && a.2 ≤ b.2)

/-- Python `l.sort(key=dial_sort_key)`: compute every key first (any key failure
raises before the list is reordered), then sort stably by the keys. -/
def pySortByDialKey (l : List String) : Except PyErr (List String) := do
  let keyed ← l.mapM (fun s => do
    let k ← dial_sort_key s
    .ok (k, s))
  .ok ((stableSort (fun a b => dialKeyLe a.1 b.1) keyed).map (fun p => p.2))

/-! ## Traversal layer (`data_utils.py`) -/

/-- The speaker skipped by `dialogue_iterator`'s `filter` variable:
`'USER' if not user else 'SYSTEM' if not system else ''`. -/
def speakerSkip (user system : Bool) : Option Speaker :=
  if !user then some .USER else if !system then some .SYSTEM else none

/-- The turn sequence produced by `data_utils.dialogue_iterator` once its
argument check has passed. -/
def iterTurns (d : Dialogue) (user system : Bool) : List Turn :=
  match speakerSkip user system with
  | some sp => d.turns.filter (fun t => !(t.speaker = sp : Bool))
  | none => d.turns

/-- `data_utils.dialogue_iterator`: raises `ValueError` when no speaker is
selected, otherwise yields the turns not matching the skip filter. -/
def dialogue_iterator (d : Dialogue) (user system : Bool) : Except PyErr (List Turn) :=
  if !user && !system then .error (.valueError "At least a speaker needs to be specified!")
  else .ok (iterTurns d user system)

/-- `data_utils.get_filenames`. -/
def get_filenames (c : Corpus) (split : SplitName) : List String :=
  (c.files split).map (fun f => f.path)

/-- All dialogue files of the corpus, in `data_utils._SPLIT_NAMES` order. -/
def allFiles (c : Corpus) : List DialFile :=
  (SPLIT_NAMES_data.map c.files).flatten

/-- Python `open(filename)` over the corpus directory: the file with that path. -/
def Corpus.findFile (c : Corpus) (path : String) : Option DialFile :=
  (allFiles c).find? (fun f => f.path == path)

/-- `data_utils.split_iterator` without `return_only`: every `(filepath, dialogue)`
pair of the split, in file order then in-file order. -/
def split_iterator_all (c : Corpus) (split : SplitName) : List (String × Dialogue) :=
  (c.files split).flatMap (fun f => f.dialogues.map (fun d => (f.path, d)))

/-- `data_utils.corpus_iterator`. -/
def corpus_iterator (c : Corpus) : List (String × Dialogue) :=
  SPLIT_NAMES_data.flatMap (fun split => split_iterator_all c split)

/-- The integer index declared by a dialogue ID's second component:
`int(dial_id.split("_")[1])`. -/
def pyDialIndex (dial_id : String) : Except PyErr Nat := do
  let part ← pySplitIdx dial_id '_' 1
  pyIntNat part

/-- The `missing_dialogues` test of `data_utils.file_iterator`:
`not (int(dial_bunch[-1]['dialogue_id'].split("_")[1]) + 1 == len(dial_bunch))`
(an `IndexError` on an empty file, as `dial_bunch[-1]` raises). -/
def fileMissingDialogues (f : DialFile) : Except PyErr Bool := do
  match f.dialogues.getLast? with
  | none => .error .indexError
  | some last => do
    let max_index := (← pyDialIndex last.dialogue_id) + 1
    .ok (decide (¬ max_index = f.dialogues.length))

/-- The degraded linear scan of `data_utils.file_iterator` (the
`missing_dialogues` branch): match IDs by equality, short-circuit once every
requested ID has been returned. -/
def scanReturnOnly (path : String) (ro : List String) :
    List Dialogue → List String → List (String × Dialogue)
  | [], _ => []
  | d :: rest, returned =>
    if d.dialogue_id ∈ ro then
      let returned' := pyInsert returned d.dialogue_id
      (path, d) :: (if pySetEq returned' ro then [] else scanReturnOnly path ro rest returned')
    else scanReturnOnly path ro rest returned

/-- `data_utils.file_iterator` on an in-memory file.  `return_only = []` models
both `None` and an empty set (both falsy in the Python `if return_only:`). -/
def file_iterator_file (file : DialFile) (return_only : List String) :
    Except PyErr (List (String × Dialogue)) := do
  let dial_bunch := file.dialogues
  let missing_dialogues ← fileMissingDialogues file
  if return_only ≠ [] then
    if !missing_dialogues then
      return_only.mapM (fun dial_id => do
        let dial_idx ← pyDialIndex dial_id
        match dial_bunch[dial_idx]? with
        | some d => .ok (file.path, d)
        | none => .error .indexError)
    else
      .ok (scanReturnOnly file.path return_only dial_bunch [])
  else
    .ok (dial_bunch.map (fun d => (file.path, d)))

/-- `data_utils.file_iterator`: open the file by name, then iterate. -/
def file_iterator (c : Corpus) (filename : String) (return_only : List String) :
    Except PyErr (List (String × Dialogue)) :=
  match c.findFile filename with
  | none => .error .fileNotFound
  | some f => file_iterator_file f return_only

/-- The module-level `directory` constant of `data_utils.py`
(`os.path.dirname(__file__)`). -/
def directory : String := "."

/-- `data_utils.reconstruct_filename`. -/
def reconstruct_filename (dial_id : String) : Except PyErr String := do
  let filePref ← pyIntNat (← pySplitIdx dial_id '_' 0)
  let strFilePref :=
    if filePref < 10 then "00" ++ toString filePref
    else if filePref < 100 then "0" ++ toString filePref
    else toString filePref
  .ok ("dialogues_" ++ strFilePref ++ ".json")

/-- `data_utils.get_file_map`: group requested dialogue IDs by backing file. -/
def get_file_map (dialogue_ids : List String) (split : SplitName) :
    Except PyErr (List (String × List String)) :=
  dialogue_ids.foldlM (fun m dial_id => do
    let fn ← reconstruct_filename dial_id
    .ok (alUpd m (directory ++ "/" ++ split.str ++ "/" ++ fn) [] (fun l => l ++ [dial_id]))) []

/-- `data_utils.split_iterator` with a `return_only` set: group the IDs by
backing file, then delegate to `file_iterator` per file. -/
def split_iterator_only (c : Corpus) (split : SplitName) (return_only : List String) :
    Except PyErr (List (String × Dialogue)) := do
  if return_only ≠ [] then
    let file_map ← get_file_map return_only split
    file_map.foldlM (fun acc entry => do
      let pairs ← file_iterator c entry.1 (pySetOf entry.2)
      .ok (acc ++ pairs)) []
  else
    .ok (split_iterator_all c split)

/-! ## `sgd_utils/dialogue_utils.py` -/

/-- `get_dialogue_intents`: the set of active intents over the user turns.
The Python default `exclude_none=True` is passed explicitly by every caller
modelled here.  The underlying `dialogue_iterator(dialogue, user=True,
system=False)` call cannot raise (one speaker flag is set), so its yielded
turn list is `iterTurns d true false`. -/
def intentOfFrameStep (exclude_none : Bool) (intents : List String) (frame : Frame) :
    List String :=
  let intent := frame.state.active_intent
  if exclude_none then
    if intent = "NONE" then intents else pyInsert intents intent
  else pyInsert intents intent

def get_dialogue_intents (d : Dialogue) (exclude_none : Bool) : List String :=
  (iterTurns d true false).foldl (fun intents turn =>
    turn.frames.foldl (intentOfFrameStep exclude_none) intents) []

/-! ## Intent taxonomy (`_generate_metadata.py`) -/

/-- The two intent buckets built by `get_schema_intents`. -/
structure IntentBuckets where
  transactional : List String
  search : List String
deriving DecidableEq, Repr

/-- The bucketing of one schema intent by its `is_transactional` flag. -/
def schemaIntentStep (intents : IntentBuckets) (intent : SchemaIntent) : IntentBuckets :=
  if intent.is_transactional then
    { intents with transactional := pyInsert intents.transactional intent.name }
  else
    { intents with search := pyInsert intents.search intent.name }

/-- `get_schema_intents`: bucket every intent of every service schema of the
split by its `is_transactional` flag. -/
def get_schema_intents (c : Corpus) (split : SplitName) : IntentBuckets :=
  (c.schemas split).foldl (fun intents service =>
    service.intents.foldl schemaIntentStep intents) ⟨[], []⟩

/-- The output shape of `get_intents_by_type`: sorted lists per bucket. -/
structure IntentsByType where
  transactional : List String
  search : List String
deriving DecidableEq, Repr

/-- `get_intents_by_type`: union each split's buckets (set `update`, so no
classification ever overwrites another), then sort each bucket with
`alphabetical_sort_key`. -/
def get_intents_by_type (c : Corpus) : IntentsByType :=
  let all := SPLIT_NAMES_meta.foldl (fun (acc : IntentBuckets) split =>
    let schema_intents := get_schema_intents c split
    ⟨pyUnion acc.transactional schema_intents.transactional,
     pyUnion acc.search schema_intents.search⟩) ⟨[], []⟩
  ⟨pySortedAlpha all.transactional, pySortedAlpha all.search⟩

/-! ## Binary slots (`_generate_metadata._find_service_binary_slots`) -/

/-- The test a slot of a service schema must pass inside
`_find_service_binary_slots`: categorical, exactly two possible values, and
`'True' in values or (values[0].isdigit() and int(values[0]) <= 1)`. -/
def binarySlotCond (slot : SchemaSlot) : Bool :=
  slot.is_categorical &&
    (slot.possible_values.length = 2 &&
      (slot.possible_values.contains "True" ||
        (pyIsDigit (slot.possible_values.headD "") &&
          (digitsToNat (slot.possible_values.headD "") ≤ 1))))

/-- `_find_service_binary_slots`: the binary-slot name set for one service.
The Python wraps this single set in a one-key `{service_name: set}` dict
(adding an explicit empty set when no slot qualifies, so the key always
exists); the key is always exactly `service.service_name`, so the set alone
is returned here. -/
def _find_service_binary_slots (service : Service) : List String :=
  service.slots.foldl (fun binary_slots slot =>
    if binarySlotCond slot then pyInsert binary_slots slot.name else binary_slots) []

/-! ## Intent-type filter (`_generate_metadata.filter_by_intent_type`) -/

/-- The branch conditions of `filter_by_intent_type`'s loop body, by flag
combination (both flags `false` is rejected before the loop). -/
def filterCond (transactional_intents search_intents : List String)
    (transactional search : Bool) (intents : List String) : Bool :=
  if transactional && !search then pySubset intents transactional_intents
  else if search && !transactional then pySubset intents search_intents
  else !pySubset intents transactional_intents && !pySubset intents search_intents

/-- One step of `filter_by_intent_type`'s loop over `split_iterator(split)`. -/
def filterStep (transactional_intents search_intents : List String)
    (transactional search : Bool) (m : List (String × List String))
    (p : String × Dialogue) : List (String × List String) :=
  let intents := get_dialogue_intents p.2 true
  if filterCond transactional_intents search_intents transactional search intents then
    alUpd m p.1 [] (fun ids => pyInsert ids p.2.dialogue_id)
  else m

/-- `filter_by_intent_type`: raises `ValueError` when both flags are false,
otherwise groups, per backing file, the IDs of the dialogues whose intent set
passes this flag combination's subset test. -/
def filter_by_intent_type (c : Corpus) (split : SplitName)
    (transactional search : Bool) : Except PyErr (List (String × List String)) :=
  if !transactional && !search then
    .error (.valueError "At least one intent type must be specified")
  else
    let all_intents := get_intents_by_type c
    .ok ((split_iterator_all c split).foldl
      (filterStep all_intents.transactional all_intents.search transactional search) [])

/-! ## Dialogue classifier (`_generate_metadata.get_dialogues_by_type`) -/

/-- The flag update contributed by one frame's active intent
(`if active_intent != 'NONE': if active_intent in intents_mapping['transactional']: ...`). -/
def classifyFrameStep (transactional_intents : List String) (flags : Bool × Bool)
    (frame : Frame) : Bool × Bool :=
  let active_intent := frame.state.active_intent
  if active_intent = "NONE" then flags
  else if active_intent ∈ transactional_intents then (true, flags.2)
  else (flags.1, true)

/-- The flag update contributed by one user turn's frames. -/
def classifyTurnFlags (transactional_intents : List String) (turn : Turn)
    (flags : Bool × Bool) : Bool × Bool :=
  turn.frames.foldl (classifyFrameStep transactional_intents) flags

/-- Whether a frame's active intent sets the `transactional` flag. -/
def frameFlagsTrans (transactional_intents : List String) (fr : Frame) : Bool :=
  !(fr.state.active_intent == "NONE") && decide (fr.state.active_intent ∈ transactional_intents)

/-- Whether a frame's active intent sets the `search` flag. -/
def frameFlagsSearch (transactional_intents : List String) (fr : Frame) : Bool :=
  !(fr.state.active_intent == "NONE") && !decide (fr.state.active_intent ∈ transactional_intents)

/-- The user-turn scan of `get_dialogues_by_type`, with its early `break` once
both flags are set. -/
def classifyFlags (transactional_intents : List String) :
    List Turn → Bool × Bool → Bool × Bool
  | [], flags => flags
  | turn :: rest, flags =>
    let flags' := classifyTurnFlags transactional_intents turn flags
    if flags'.1 && flags'.2 then flags' else classifyFlags transactional_intents rest flags'

/-- The `if`/`elif`/`else` at the bottom of the classifier's dialogue loop. -/
def dbtLabel (flags : Bool × Bool) : String :=
  if flags.1 && !flags.2 then "transactional"
  else if flags.2 && !flags.1 then "search"
  else "mixed_intent"

/-- The label (`'transactional'` / `'search'` / `'mixed_intent'`) the
classifier's `if`/`elif`/`else` appends a dialogue under. -/
def classify_dialogue (intents_mapping : IntentsByType) (d : Dialogue) : String :=
  dbtLabel (classifyFlags intents_mapping.transactional (iterTurns d true false) (false, false))

/-- The nested result dict of `get_dialogues_by_type`:
split name → label → list of dialogue IDs. -/
abbrev DBT : Type := List (String × List (String × List String))

/-- `dialogues_by_type[split][label].append(dialogue_id)` through the two
defaultdict layers. -/
def dbtAppend (m : DBT) (split label dialogue_id : String) : DBT :=
  alUpd m split [] (fun inner => alUpd inner label [] (fun ids => ids ++ [dialogue_id]))

/-- The buggy per-split sort pass
`for intent_type in dialogues_by_type: dialogues_by_type[split][intent_type].sort(key=dial_sort_key)`:
it iterates the OUTER dict (whose keys are split names), so it sorts the
freshly created empty lists `dialogues_by_type[split]['train']`, ... and never
touches the three label buckets.  When `split` is not yet an outer key and the
outer dict is nonempty, the defaultdict access inserts `split` while the outer
dict is being iterated, which raises `RuntimeError` in Python. -/
def dbtSortPass (m : DBT) (split : String) : Except PyErr DBT :=
  let ks := m.map (fun p => p.1)
  if ¬ split ∈ ks ∧ ks ≠ [] then .error .runtimeError
  else
    ks.foldlM (fun (m : DBT) k => do
      let cur := (alGet2 m split k).getD []
      let sorted ← pySortByDialKey cur
      .ok (alUpd m split [] (fun inner => alUpd inner k [] (fun _ => sorted)))) m


/-- The strings the outer keys of `dialogues_by_type` can be. -/
def splitKeyStrings : List String := ["train", "dev", "test"]

/-- The per-split append phase of `get_dialogues_by_type`. -/
def dbtPhase (c : Corpus) (intents_mapping : IntentsByType) (split : SplitName)
    (m : DBT) : DBT :=
  (split_iterator_all c split).foldl (fun m p =>
    dbtAppend m split.str (classify_dialogue intents_mapping p.2) p.2.dialogue_id) m

/-- `get_dialogues_by_type`: classify every dialogue of every split and append
its ID under `dialogues_by_type[split][label]`, then run the (buggy) per-split
sort pass. -/
def get_dialogues_by_type (c : Corpus) (intents_mapping : IntentsByType) :
    Except PyErr DBT :=
  SPLIT_NAMES_meta.foldlM (fun (m : DBT) split =>
    dbtSortPass (dbtPhase c intents_mapping split m) split.str) []

/-! ## Entity slots (`_generate_metadata._get_entity_slots` / `get_entity_slots_map`) -/

/-- The nested entity-slot dict: service name → intent name → slot-name set. -/
abbrev EMap : Type := List (String × List (String × List String))

/-- The set comprehension `{entry['slot'] for entry in frame['slots']}`. -/
def mentionedSlots (frame : Frame) : List String :=
  frame.slots.foldl (fun s entry => pyInsert s entry.slot) []

/-- The merge of the two `filter_by_intent_type` results at the top of
`_get_entity_slots` (union the ID set into `filtered_dialogues[file_id]`, or
install it when the file key is new). -/
def mergeFiltered (filtered search_only : List (String × List String)) :
    List (String × List String) :=
  search_only.foldl (fun fd entry =>
    match alGet fd entry.1 with
    | some ids => alSet fd entry.1 (pyUnion ids entry.2)
    | none => fd ++ [(entry.1, entry.2)]) filtered

/-- The body of `_get_entity_slots`' turn loop.  `turn['frames'][0]` is read
unconditionally (an `IndexError` when a turn has no frames — and the first
frame silently stands for the whole turn when there is more than one).  When
the frame records a `service_call` to a search intent with nonempty
`service_results`, the running per-`(service, intent)` set is intersected with
the frame's mentioned slots (the first occurrence seeds it). -/
def entityTurnStep (search_intents : List String) (m : EMap) (turn : Turn) :
    Except PyErr EMap :=
  match turn.frames.head? with
  | none => .error .indexError
  | some frame =>
    match frame.service_call with
    | none => .ok m
    | some call =>
      let service := frame.service
      let intent := call.method
      let service_results := frame.service_results
      if intent ∈ search_intents ∧ service_results ≠ [] then
        let mentioned_slots := mentionedSlots frame
        .ok (alUpd m service [] (fun inner =>
          match alGet inner intent with
          | some prev => alSet inner intent (pyInter prev mentioned_slots)
          | none => alUpd inner intent [] (fun _ => mentioned_slots)))
      else .ok m

/-- The system-turn scan of one dialogue inside `_get_entity_slots`
(`dialogue_iterator(dial, user=False, system=True)` cannot raise). -/
def entityDialStep (search_intents : List String) (m : EMap) (d : Dialogue) :
    Except PyErr EMap :=
  (iterTurns d false true).foldlM (entityTurnStep search_intents) m

/-- `_get_entity_slots`: select the mixed and the search-only dialogues of the
split, then scan their system turns file by file through
`file_iterator(file, return_only=...)`. -/
def _get_entity_slots (c : Corpus) (split : SplitName) : Except PyErr EMap := do
  let filtered ← filter_by_intent_type c split true true
  let search_only ← filter_by_intent_type c split false true
  let filtered_dialogues := mergeFiltered filtered search_only
  let search_intents := pySetOf (get_intents_by_type c).search
  filtered_dialogues.foldlM (fun (m : EMap) entry => do
    let pairs ← file_iterator c entry.1 entry.2
    pairs.foldlM (fun m p => entityDialStep search_intents m p.2) m) []

/-- The cross-split merge of `get_entity_slots_map` (lines 406-414): install a
new service wholesale; for an existing service, the inner check
`if intent not in this_split_slots[service]` tests the wrong dict and is
always false, so the `update` (set union) branch always runs, creating the
intent key with an empty set first when it is new. -/
def mergeEntityMaps (entity_slots this_split_slots : EMap) : EMap :=
  this_split_slots.foldl (fun es svcEntry =>
    match alGet es svcEntry.1 with
    | none => es ++ [(svcEntry.1, svcEntry.2)]
    | some _ =>
      svcEntry.2.foldl (fun es intentEntry =>
        alUpd es svcEntry.1 [] (fun inner =>
          alUpd inner intentEntry.1 [] (fun prev => pyUnion prev intentEntry.2))) es)
    entity_slots

/-- `get_entity_slots_map`: merge the per-split maps (`if not entity_slots`
treats an empty dict as "first split"), then cast every slot set to a list
sorted with `alphabetical_sort_key`. -/
def get_entity_slots_map (c : Corpus) : Except PyErr EMap := do
  let entity_slots ← SPLIT_NAMES_meta.foldlM (fun (acc : EMap) split => do
    let this_split_slots ← _get_entity_slots c split
    if acc = [] then .ok this_split_slots
    else .ok (mergeEntityMaps acc this_split_slots)) ([] : EMap)
  .ok (entity_slots.map (fun svcEntry =>
    (svcEntry.1, svcEntry.2.map (fun intentEntry =>
      (intentEntry.1, pySortedAlpha intentEntry.2)))))

/-! ## `print_utils.get_actions` -/

/-- The action formatting of `print_utils.get_actions`' loop body. -/
def formatAction (d : ActionDict) : String :=
  let slot := d.slot
  let val := if slot ≠ "" then (if d.values ≠ [] then pyJoinSpace d.values else "") else ""
  if slot ≠ "" ∧ val ≠ "" then d.act ++ "(" ++ slot ++ "=" ++ val ++ ")"
  else d.act ++ "(" ++ slot ++ ")"

/-- `print_utils.get_actions`: raises `IndexError` ("Found a more than one
frame per turn!") when a turn has more than one frame, otherwise formats the
first frame's actions (`turn['frames'][0]` raises on an empty frame list). -/
def get_actions (turn : Turn) : Except PyErr (List String) :=
  if 1 < turn.frames.length then .error .indexError
  else
    match turn.frames.head? with
    | none => .error .indexError
    | some frame => .ok (frame.actions.map formatAction)

/-! ## `_generate_metadata.get_multiple_services_dialogues` -/

/-- Python `os.path.dirname` (posixpath): everything before the last `'/'`,
with trailing slashes stripped unless the result is all slashes. -/
def pyDirname (p : String) : String :=
  let cs := p.toList
  let tail_len := (cs.reverse.takeWhile (fun ch => !(ch = '/' : Bool))).length
  let head := String.mk (cs.take (cs.length - tail_len))
  if head ≠ "" ∧ head.toList.any (fun ch => ¬ ch = '/') then
    String.mk (head.toList.reverse.dropWhile (fun ch => ch = '/')).reverse
  else head

/-- The split-name extraction `*_, split = os.path.dirname(fp).split("/")`. -/
def splitFromPath (fp : String) : String :=
  (pySplitChar '/' (pyDirname fp)).getLastD ""

/-- `get_multiple_services_dialogues`: despite its name, it appends EVERY
dialogue ID of the corpus under its split key, never inspecting the
dialogue's `services` list. -/
def get_multiple_services_dialogues (c : Corpus) : List (String × List String) :=
  (corpus_iterator c).foldl (fun multi_service p =>
    alUpd multi_service (splitFromPath p.1) [] (fun ids => ids ++ [p.2.dialogue_id])) []

/-! ## Well-formedness of the corpus files -/

instance {ε α : Type} [DecidableEq ε] [DecidableEq α] : DecidableEq (Except ε α) := fun a b =>
  match a, b with
  | .ok x, .ok y =>
    if h : x = y then .isTrue (by rw [h]) else .isFalse (fun hc => h (Except.ok.inj hc))
  | .ok _, .error _ => .isFalse (fun hc => Except.noConfusion hc)
  | .error _, .ok _ => .isFalse (fun hc => Except.noConfusion hc)
  | .error e, .error e' =>
    if h : e = e' then .isTrue (by rw [h]) else .isFalse (fun hc => h (Except.error.inj hc))

/-- Every dialogue of the file sits at the in-file index its ID's second
component declares (the layout `file_iterator`'s fast path relies on). -/
def FileWF (f : DialFile) : Prop :=
  ∀ i : Fin f.dialogues.length, pyDialIndex (f.dialogues.get i).dialogue_id = .ok i.val

instance (f : DialFile) : Decidable (FileWF f) :=
  inferInstanceAs (Decidable (∀ i : Fin f.dialogues.length,
    pyDialIndex (f.dialogues.get i).dialogue_id = .ok i.val))

/-- The corpus layout assumptions of the traversal layer: every file is
index-consistent and file paths are unique corpus-wide. -/
def CorpusWF (c : Corpus) : Prop :=
  (∀ f ∈ allFiles c, FileWF f) ∧ ((allFiles c).map (fun f => f.path)).Nodup

instance (c : Corpus) : Decidable (CorpusWF c) :=
  inferInstanceAs (Decidable (_ ∧ _))

/-- Lookup of one label bucket of the classifier's result. -/
def bucketIds (m : DBT) (split label : String) : List String :=
  (alGet2 m split label).getD []


/-! ## Concrete corpora used as counterexamples and witnesses -/

/-- A user turn whose single frame activates `intent`. -/
def userTurn (intent : String) : Turn :=
  ⟨.USER, "", [⟨"S", ⟨intent, [], []⟩, [], [], none, []⟩]⟩

/-- A system turn whose single frame records a service call to `intent` on
`svc`, with one result entity and with `slots` mentioned. -/
def sysCallTurn (svc intent : String) (slots : List String) : Turn :=
  ⟨.SYSTEM, "", [⟨svc, ⟨"NONE", [], []⟩, slots.map (fun s => ⟨s, 0, 1⟩), [],
    some ⟨intent, []⟩, [[("r", "1")]]⟩]⟩

/-- The qualifying system frame of `sysCallTurn svc intent slots`. -/
def sysCallFrame (svc intent : String) (slots : List String) : Frame :=
  ⟨svc, ⟨"NONE", [], []⟩, slots.map (fun s => ⟨s, 0, 1⟩), [],
    some ⟨intent, []⟩, [[("r", "1")]]⟩

/-- Search-only dialogue of `cexA`'s train split: mentions slot `a` after a
successful `FindX` call. -/
def dialA1 : Dialogue :=
  ⟨"1_00000", ["S"], [userTurn "FindX", sysCallTurn "S" "FindX" ["a"]]⟩

/-- Search-only dialogue of `cexA`'s dev split: mentions slot `b`. -/
def dialA2 : Dialogue :=
  ⟨"1_00000", ["S"], [userTurn "FindX", sysCallTurn "S" "FindX" ["b"]]⟩

/-- Corpus with the same search intent exercised in two splits, mentioning
different slots: exposes the cross-split union in `get_entity_slots_map`. -/
def cexA : Corpus where
  schemas := fun sp => match sp with
    | .train => [⟨"S", [⟨"FindX", false⟩], []⟩]
    | .dev => [⟨"S", [⟨"FindX", false⟩], []⟩]
    | .test => []
  files := fun sp => match sp with
    | .train => [⟨"./train/dialogues_001.json", [dialA1]⟩]
    | .dev => [⟨"./dev/dialogues_001.json", [dialA2]⟩]
    | .test => []

/-- Corpus whose two splits disagree on intent `X`'s `is_transactional` flag. -/
def cexB : Corpus where
  schemas := fun sp => match sp with
    | .train => [⟨"T1", [⟨"X", true⟩], []⟩]
    | .dev => [⟨"T2", [⟨"X", false⟩], []⟩]
    | .test => []
  files := fun _ => []

/-- A system turn carrying TWO frames; only the first one records the call. -/
def twoFrameTurn : Turn :=
  ⟨.SYSTEM, "", [sysCallFrame "S" "FindX" ["a"], ⟨"T", ⟨"NONE", [], []⟩, [], [], none, []⟩]⟩

/-- Search-only dialogue containing the two-frame system turn. -/
def dialC : Dialogue :=
  ⟨"1_00000", ["S"], [userTurn "FindX", twoFrameTurn]⟩

/-- Corpus whose only scanned system turn has two frames. -/
def cexC : Corpus where
  schemas := fun sp => match sp with
    | .train => [⟨"S", [⟨"FindX", false⟩], []⟩]
    | .dev => []
    | .test => []
  files := fun sp => match sp with
    | .train => [⟨"./train/dialogues_001.json", [dialC]⟩]
    | .dev => []
    | .test => []

/-- Corpus whose train split lists its files in an order that puts dialogue
`10_00000` before `2_00000` (as an arbitrary `glob` order may); all dialogues
activate the transactional intent `Buy`. -/
def cexD : Corpus where
  schemas := fun _ => []
  files := fun sp => match sp with
    | .train =>
      [⟨"./train/dialogues_010.json", [⟨"10_00000", ["A", "B"], [userTurn "Buy"]⟩]⟩,
       ⟨"./train/dialogues_002.json", [⟨"2_00000", ["A"], [userTurn "Buy"]⟩]⟩]
    | .dev => [⟨"./dev/dialogues_001.json", [⟨"1_00000", ["OnlyService"], [userTurn "Buy"]⟩]⟩]
    | .test => [⟨"./test/dialogues_001.json", [⟨"1_00000", [], [userTurn "Buy"]⟩]⟩]

/-- The explicit intent taxonomy used with `cexD`. -/
def mappingD : IntentsByType := ⟨["Buy"], []⟩

/-- A dialogue whose only user frame keeps the `NONE` sentinel intent. -/
def dialNone : Dialogue :=
  ⟨"0_00000", [], [userTurn "NONE"]⟩

/-- Corpus for the intent-type filter: one genuinely mixed dialogue. -/
def cexE : Corpus where
  schemas := fun sp => match sp with
    | .train => [⟨"S", [⟨"Buy", true⟩, ⟨"Find", false⟩], []⟩]
    | .dev => []
    | .test => []
  files := fun sp => match sp with
    | .train => [⟨"./train/dialogues_001.json",
        [⟨"1_00000", ["S"], [userTurn "Buy", userTurn "Find"]⟩]⟩]
    | .dev => []
    | .test => []

/-- Zero-padding to the five digits of an in-file dialogue index. -/
def pad5 (n : Nat) : String :=
  let s := toString n
  String.mk (List.replicate (5 - s.length) '0') ++ s

/-- A dialogue file with 24 index-consistent dialogues `5_00000` .. `5_00023`. -/
def file8 : DialFile :=
  ⟨"./train/dialogues_005.json", (List.range 24).map (fun k => ⟨"5_" ++ pad5 k, [], []⟩)⟩

/-- Corpus backing the ID-filtered traversal example for dialogue `5_00023`. -/
def wit8 : Corpus where
  schemas := fun _ => []
  files := fun sp => match sp with
    | .train => [file8]
    | .dev => []
    | .test => []

/-- A service schema with the three example binary-candidate slots. -/
def svcBin : Service :=
  ⟨"Svc", [],
    [⟨"tf", true, ["True", "False"]⟩,
     ⟨"zo", true, ["0", "1"]⟩,
     ⟨"ot", true, ["1", "2"]⟩]⟩

/-! ## Membership lemmas for the set model -/

theorem mem_pyInsert {s : List String} {x y : String} :
    x ∈ pyInsert s y ↔ x = y ∨ x ∈ s := by
  unfold pyInsert
  by_cases h : y ∈ s
  · simp only [if_pos h]
    constructor
    · intro hx; exact Or.inr hx
    · intro hx; rcases hx with hx | hx
      · rw [hx]; exact h
      · exact hx
  · simp only [if_neg h, List.mem_append, List.mem_singleton]
    tauto

theorem mem_foldl_pyInsert {l s : List String} {x : String} :
    x ∈ l.foldl pyInsert s ↔ x ∈ s ∨ x ∈ l := by
  induction l generalizing s with
  | nil => simp
  | cons y rest ih =>
    simp only [List.foldl_cons, ih, mem_pyInsert, List.mem_cons]
    tauto

theorem mem_pyUnion {s t : List String} {x : String} :
    x ∈ pyUnion s t ↔ x ∈ s ∨ x ∈ t := mem_foldl_pyInsert

theorem mem_pySetOf {l : List String} {x : String} :
    x ∈ pySetOf l ↔ x ∈ l := by
  unfold pySetOf
  rw [mem_foldl_pyInsert]
  simp

theorem mem_pyInter {s t : List String} {x : String} :
    x ∈ pyInter s t ↔ x ∈ s ∧ x ∈ t := by
  unfold pyInter
  simp

theorem pySubset_iff {s t : List String} :
    pySubset s t = true ↔ ∀ x ∈ s, x ∈ t := by
  unfold pySubset
  simp

theorem mem_stableInsert {α : Type} (le : α → α → Bool) (x y : α) (l : List α) :
    x ∈ stableInsert le y l ↔ x = y ∨ x ∈ l := by
  induction l with
  | nil => simp [stableInsert]
  | cons z rest ih =>
    unfold stableInsert
    by_cases h : le z y = true
    · simp only [if_pos h, List.mem_cons, ih]
      tauto
    · simp only [if_neg h, List.mem_cons]

theorem mem_foldl_stableInsert {α : Type} (le : α → α → Bool) (x : α) (l s : List α) :
    x ∈ l.foldl (fun acc y => stableInsert le y acc) s ↔ x ∈ s ∨ x ∈ l := by
  induction l generalizing s with
  | nil => simp
  | cons y rest ih =>
    simp only [List.foldl_cons, ih, mem_stableInsert, List.mem_cons]
    tauto

theorem mem_stableSort {α : Type} (le : α → α → Bool) (x : α) (l : List α) :
    x ∈ stableSort le l ↔ x ∈ l := by
  unfold stableSort
  rw [mem_foldl_stableInsert]
  simp

theorem mem_pySortedAlpha {l : List String} {x : String} :
    x ∈ pySortedAlpha l ↔ x ∈ l := mem_stableSort _ _ _

/-! ## Association-list lemmas -/

theorem alGet_alUpd {α : Type} (m : List (String × α)) (k k' : String) (dflt : α) (f : α → α) :
    alGet (alUpd m k dflt f) k' =
      if k' = k then some (f ((alGet m k).getD dflt)) else alGet m k' := by
  induction m with
  | nil =>
    by_cases h : k' = k
    · simp [alUpd, alGet, h]
    · simp [alUpd, alGet, h, Ne.symm h]
  | cons p rest ih =>
    obtain ⟨k0, v0⟩ := p
    by_cases h0 : k0 = k
    · subst h0
      by_cases h1 : k' = k0
      · subst h1
        simp [alUpd, alGet]
      · simp [alUpd, alGet, h1, Ne.symm h1]
    · by_cases h1 : k' = k0
      · subst h1
        simp [alUpd, alGet, h0, Ne.symm h0]
      · simp only [alUpd, if_neg h0]
        have hg : alGet ((k0, v0) :: rest) k = alGet rest k := by
          simp [alGet, Ne.symm h0, h0]
        have hg' : ∀ r : List (String × α), alGet ((k0, v0) :: r) k' = alGet r k' := by
          intro r
          simp [alGet, Ne.symm h1, h1]
        rw [hg', hg', ih, hg]

theorem alGet_alSet {α : Type} (m : List (String × α)) (k k' : String) (v : α) :
    alGet (alSet m k v) k' = if k' = k then some v else alGet m k' := by
  unfold alSet
  rw [alGet_alUpd]

/-! ## Reduction lemmas for the `Except` monad -/

theorem alGet_nil {α : Type} (k : String) : alGet ([] : List (String × α)) k = none := rfl

theorem except_bind_ok {α β : Type} (a : α) (f : α → Except PyErr β) :
    (Except.ok a >>= f) = f a := rfl

theorem except_bind_err {α β : Type} (e : PyErr) (f : α → Except PyErr β) :
    ((Except.error e : Except PyErr α) >>= f) = .error e := rfl

theorem except_pure {α : Type} (a : α) : (pure a : Except PyErr α) = .ok a := rfl

theorem except_bind_eq_ok {α β : Type} {x : Except PyErr α} {f : α → Except PyErr β}
    {b : β} (h : (x >>= f) = .ok b) : ∃ a, x = .ok a ∧ f a = .ok b := by
  cases x with
  | ok a => exact ⟨a, rfl, h⟩
  | error e => exact absurd h (by intro hc; cases hc)

/-! ## Characterization of the binary-slot detector -/

theorem mem_binary_fold (slots : List SchemaSlot) (s : List String) (name : String) :
    name ∈ slots.foldl (fun binary_slots slot =>
        if binarySlotCond slot then pyInsert binary_slots slot.name else binary_slots) s ↔
      name ∈ s ∨ ∃ slot ∈ slots, slot.name = name ∧ binarySlotCond slot = true := by
  induction slots generalizing s with
  | nil => simp
  | cons slot rest ih =>
    simp only [List.foldl_cons, List.mem_cons]
    by_cases h : binarySlotCond slot = true
    · rw [if_pos h, ih]
      simp only [mem_pyInsert]
      constructor
      · rintro ((rfl | hs) | ⟨sl, hsl, rfl, hc⟩)
        · exact Or.inr ⟨slot, Or.inl rfl, rfl, h⟩
        · exact Or.inl hs
        · exact Or.inr ⟨sl, Or.inr hsl, rfl, hc⟩
      · rintro (hs | ⟨sl, (rfl | hsl), rfl, hc⟩)
        · exact Or.inl (Or.inr hs)
        · exact Or.inl (Or.inl rfl)
        · exact Or.inr ⟨sl, hsl, rfl, hc⟩
    · rw [if_neg h, ih]
      constructor
      · rintro (hs | ⟨sl, hsl, rfl, hc⟩)
        · exact Or.inl hs
        · exact Or.inr ⟨sl, Or.inr hsl, rfl, hc⟩
      · rintro (hs | ⟨sl, (rfl | hsl), rfl, hc⟩)
        · exact Or.inl hs
        · exact absurd hc h
        · exact Or.inr ⟨sl, hsl, rfl, hc⟩

theorem binarySlotCond_iff (slot : SchemaSlot) :
    binarySlotCond slot = true ↔
      slot.is_categorical = true ∧ slot.possible_values.length = 2 ∧
        ("True" ∈ slot.possible_values ∨
          (pyIsDigit (slot.possible_values.headD "") = true ∧
            digitsToNat (slot.possible_values.headD "") ≤ 1)) := by
  unfold binarySlotCond
  simp only [Bool.and_eq_true, Bool.or_eq_true, decide_eq_true_eq, List.elem_iff]

/-! ## Characterization of the schema-intent buckets -/

theorem mem_intentFold_trans (intents : List SchemaIntent) (acc : IntentBuckets) (x : String) :
    x ∈ (intents.foldl schemaIntentStep acc).transactional ↔
      x ∈ acc.transactional ∨ ∃ i ∈ intents, i.name = x ∧ i.is_transactional = true := by
  induction intents generalizing acc with
  | nil => simp
  | cons i rest ih =>
    simp only [List.foldl_cons, ih, List.mem_cons]
    unfold schemaIntentStep
    by_cases h : i.is_transactional = true
    · simp only [if_pos h, mem_pyInsert]
      constructor
      · rintro ((rfl | hs) | h2)
        · exact Or.inr ⟨i, Or.inl rfl, rfl, h⟩
        · exact Or.inl hs
        · rcases h2 with ⟨j, hj, rfl, hf⟩
          exact Or.inr ⟨j, Or.inr hj, rfl, hf⟩
      · rintro (hs | ⟨j, (rfl | hj), rfl, hf⟩)
        · exact Or.inl (Or.inr hs)
        · exact Or.inl (Or.inl rfl)
        · exact Or.inr ⟨j, hj, rfl, hf⟩
    · simp only [if_neg h]
      constructor
      · rintro (hs | ⟨j, hj, rfl, hf⟩)
        · exact Or.inl hs
        · exact Or.inr ⟨j, Or.inr hj, rfl, hf⟩
      · rintro (hs | ⟨j, (rfl | hj), rfl, hf⟩)
        · exact Or.inl hs
        · exact absurd hf h
        · exact Or.inr ⟨j, hj, rfl, hf⟩

theorem mem_intentFold_search (intents : List SchemaIntent) (acc : IntentBuckets) (x : String) :
    x ∈ (intents.foldl schemaIntentStep acc).search ↔
      x ∈ acc.search ∨ ∃ i ∈ intents, i.name = x ∧ i.is_transactional = false := by
  induction intents generalizing acc with
  | nil => simp
  | cons i rest ih =>
    simp only [List.foldl_cons, ih, List.mem_cons]
    unfold schemaIntentStep
    by_cases h : i.is_transactional = true
    · simp only [if_pos h]
      constructor
      · rintro (hs | ⟨j, hj, rfl, hf⟩)
        · exact Or.inl hs
        · exact Or.inr ⟨j, Or.inr hj, rfl, hf⟩
      · rintro (hs | ⟨j, (rfl | hj), rfl, hf⟩)
        · exact Or.inl hs
        · rw [h] at hf; exact absurd hf (by simp)
        · exact Or.inr ⟨j, hj, rfl, hf⟩
    · simp only [if_neg h, mem_pyInsert]
      rw [Bool.not_eq_true] at h
      constructor
      · rintro ((rfl | hs) | ⟨j, hj, rfl, hf⟩)
        · exact Or.inr ⟨i, Or.inl rfl, rfl, h⟩
        · exact Or.inl hs
        · exact Or.inr ⟨j, Or.inr hj, rfl, hf⟩
      · rintro (hs | ⟨j, (rfl | hj), rfl, hf⟩)
        · exact Or.inl (Or.inr hs)
        · exact Or.inl (Or.inl rfl)
        · exact Or.inr ⟨j, hj, rfl, hf⟩

theorem mem_svcFold_trans (svcs : List Service) (acc : IntentBuckets) (x : String) :
    x ∈ (svcs.foldl (fun intents service =>
        service.intents.foldl schemaIntentStep intents) acc).transactional ↔
      x ∈ acc.transactional ∨
        ∃ svc ∈ svcs, ∃ i ∈ svc.intents, i.name = x ∧ i.is_transactional = true := by
  induction svcs generalizing acc with
  | nil => simp
  | cons svc rest ih =>
    simp only [List.foldl_cons, ih, mem_intentFold_trans, List.mem_cons]
    constructor
    · rintro ((hs | ⟨i, hi, rfl, hf⟩) | ⟨s, hsm, i, hi, rfl, hf⟩)
      · exact Or.inl hs
      · exact Or.inr ⟨svc, Or.inl rfl, i, hi, rfl, hf⟩
      · exact Or.inr ⟨s, Or.inr hsm, i, hi, rfl, hf⟩
    · rintro (hs | ⟨s, (rfl | hsm), i, hi, rfl, hf⟩)
      · exact Or.inl (Or.inl hs)
      · exact Or.inl (Or.inr ⟨i, hi, rfl, hf⟩)
      · exact Or.inr ⟨s, hsm, i, hi, rfl, hf⟩

theorem mem_svcFold_search (svcs : List Service) (acc : IntentBuckets) (x : String) :
    x ∈ (svcs.foldl (fun intents service =>
        service.intents.foldl schemaIntentStep intents) acc).search ↔
      x ∈ acc.search ∨
        ∃ svc ∈ svcs, ∃ i ∈ svc.intents, i.name = x ∧ i.is_transactional = false := by
  induction svcs generalizing acc with
  | nil => simp
  | cons svc rest ih =>
    simp only [List.foldl_cons, ih, mem_intentFold_search, List.mem_cons]
    constructor
    · rintro ((hs | ⟨i, hi, rfl, hf⟩) | ⟨s, hsm, i, hi, rfl, hf⟩)
      · exact Or.inl hs
      · exact Or.inr ⟨svc, Or.inl rfl, i, hi, rfl, hf⟩
      · exact Or.inr ⟨s, Or.inr hsm, i, hi, rfl, hf⟩
    · rintro (hs | ⟨s, (rfl | hsm), i, hi, rfl, hf⟩)
      · exact Or.inl (Or.inl hs)
      · exact Or.inl (Or.inr ⟨i, hi, rfl, hf⟩)
      · exact Or.inr ⟨s, hsm, i, hi, rfl, hf⟩

theorem mem_get_schema_intents_trans (c : Corpus) (sp : SplitName) (x : String) :
    x ∈ (get_schema_intents c sp).transactional ↔
      ∃ svc ∈ c.schemas sp, ∃ i ∈ svc.intents, i.name = x ∧ i.is_transactional = true := by
  unfold get_schema_intents
  rw [mem_svcFold_trans]
  simp

theorem mem_get_schema_intents_search (c : Corpus) (sp : SplitName) (x : String) :
    x ∈ (get_schema_intents c sp).search ↔
      ∃ svc ∈ c.schemas sp, ∃ i ∈ svc.intents, i.name = x ∧ i.is_transactional = false := by
  unfold get_schema_intents
  rw [mem_svcFold_search]
  simp

theorem mem_get_intents_by_type_trans (c : Corpus) (x : String) :
    x ∈ (get_intents_by_type c).transactional ↔
      ∃ sp : SplitName, x ∈ (get_schema_intents c sp).transactional := by
  unfold get_intents_by_type
  simp only [SPLIT_NAMES_meta, List.foldl_cons, List.foldl_nil, mem_pySortedAlpha]
  rw [mem_pyUnion, mem_pyUnion, mem_pyUnion]
  simp only [List.not_mem_nil, false_or]
  constructor
  · rintro ((h | h) | h)
    · exact ⟨.train, h⟩
    · exact ⟨.dev, h⟩
    · exact ⟨.test, h⟩
  · rintro ⟨sp, h⟩
    cases sp with
    | train => exact Or.inl (Or.inl h)
    | dev => exact Or.inl (Or.inr h)
    | test => exact Or.inr h

theorem mem_get_intents_by_type_search (c : Corpus) (x : String) :
    x ∈ (get_intents_by_type c).search ↔
      ∃ sp : SplitName, x ∈ (get_schema_intents c sp).search := by
  unfold get_intents_by_type
  simp only [SPLIT_NAMES_meta, List.foldl_cons, List.foldl_nil, mem_pySortedAlpha]
  rw [mem_pyUnion, mem_pyUnion, mem_pyUnion]
  simp only [List.not_mem_nil, false_or]
  constructor
  · rintro ((h | h) | h)
    · exact ⟨.train, h⟩
    · exact ⟨.dev, h⟩
    · exact ⟨.test, h⟩
  · rintro ⟨sp, h⟩
    cases sp with
    | train => exact Or.inl (Or.inl h)
    | dev => exact Or.inl (Or.inr h)
    | test => exact Or.inr h

/-! ## Claim C2 (binary-slot classification) -/

/-- C2, counterexample: the claim asserts that a categorical slot with
possible values `["1", "2"]` is NOT classified binary, but
`_find_service_binary_slots` does classify it binary (its first value `"1"`
is a digit string and `int("1") <= 1`). -/
theorem C2_counterexample :
    binarySlotCond ⟨"ot", true, ["1", "2"]⟩ = true ∧
      "ot" ∈ _find_service_binary_slots svcBin := by
  decide

/-- C2, amended: a slot is classified binary iff it is categorical, has
exactly two possible values, and `"True"` is among them or the first value is
a digit string with integer value at most 1; consequently the example slots
`["True", "False"]`, `["0", "1"]`, and ALSO `["1", "2"]` are all binary. -/
theorem C2_amended :
    (∀ (service : Service) (name : String),
      name ∈ _find_service_binary_slots service ↔
        ∃ slot ∈ service.slots, slot.name = name ∧
          slot.is_categorical = true ∧ slot.possible_values.length = 2 ∧
          ("True" ∈ slot.possible_values ∨
            (pyIsDigit (slot.possible_values.headD "") = true ∧
              digitsToNat (slot.possible_values.headD "") ≤ 1)))
    ∧ "tf" ∈ _find_service_binary_slots svcBin
    ∧ "zo" ∈ _find_service_binary_slots svcBin
    ∧ "ot" ∈ _find_service_binary_slots svcBin := by
  refine ⟨fun service name => ?_, by decide, by decide, by decide⟩
  unfold _find_service_binary_slots
  rw [mem_binary_fold]
  simp only [List.not_mem_nil, false_or]
  constructor
  · rintro ⟨slot, hm, rfl, hc⟩
    exact ⟨slot, hm, rfl, (binarySlotCond_iff slot).mp hc⟩
  · rintro ⟨slot, hm, rfl, hc⟩
    exact ⟨slot, hm, rfl, (binarySlotCond_iff slot).mpr hc⟩

/-! ## Claim C3 (intent taxonomy buckets) -/

/-- C3, counterexample: in `cexB` the train schema flags intent `X`
transactional while the (later) dev schema flags it search; `X` ends up in
BOTH buckets of `get_intents_by_type`, so the buckets are not disjoint and
the later split's classification does not win. -/
theorem C3_counterexample :
    "X" ∈ (get_intents_by_type cexB).transactional ∧
      "X" ∈ (get_intents_by_type cexB).search := by
  decide

/-- C3, amended: an intent name lands in the transactional bucket iff some
schema occurrence (in any split) flags it transactional, and in the search
bucket iff some occurrence flags it non-transactional; the buckets are merged
by set union, so a name whose occurrences disagree appears in both buckets
(and the buckets are disjoint exactly when no name has disagreeing
occurrences). -/
theorem C3_amended (c : Corpus) (name : String) :
    (name ∈ (get_intents_by_type c).transactional ↔
      ∃ sp : SplitName, ∃ svc ∈ c.schemas sp, ∃ i ∈ svc.intents,
        i.name = name ∧ i.is_transactional = true)
    ∧ (name ∈ (get_intents_by_type c).search ↔
      ∃ sp : SplitName, ∃ svc ∈ c.schemas sp, ∃ i ∈ svc.intents,
        i.name = name ∧ i.is_transactional = false) := by
  constructor
  · rw [mem_get_intents_by_type_trans]
    constructor
    · rintro ⟨sp, h⟩
      exact ⟨sp, (mem_get_schema_intents_trans c sp name).mp h⟩
    · rintro ⟨sp, h⟩
      exact ⟨sp, (mem_get_schema_intents_trans c sp name).mpr h⟩
  · rw [mem_get_intents_by_type_search]
    constructor
    · rintro ⟨sp, h⟩
      exact ⟨sp, (mem_get_schema_intents_search c sp name).mp h⟩
    · rintro ⟨sp, h⟩
      exact ⟨sp, (mem_get_schema_intents_search c sp name).mpr h⟩

/-! ## Claim C4 (multi-frame turns during entity-slot extraction) -/

/-- C4, counterexample: `cexC`'s only scanned dialogue has a system turn with
TWO frames, yet `_get_entity_slots` returns successfully (no `InvalidFrame`
failure): the extraction silently processes the turn through its first frame
only. -/
theorem C4_counterexample :
    twoFrameTurn.frames.length = 2 ∧
      twoFrameTurn ∈ iterTurns dialC false true ∧
      filter_by_intent_type cexC .train false true =
        .ok [("./train/dialogues_001.json", ["1_00000"])] ∧
      dialC.dialogue_id = "1_00000" ∧
      _get_entity_slots cexC .train = .ok [("S", [("FindX", ["a"])])] := by
  decide

/-- C4, amended: entity-slot extraction does not fail on turns with more than
one frame — its per-turn step depends only on the first frame (`frames[0]`);
the one-frame-per-turn fail-fast lives in `print_utils.get_actions`, which
raises `IndexError` whenever a turn has more than one frame. -/
theorem C4_amended :
    (∀ turn : Turn, 1 < turn.frames.length → get_actions turn = .error .indexError)
    ∧ (∀ (search_intents : List String) (m : EMap) (t1 t2 : Turn),
        t1.frames.head? = t2.frames.head? →
        entityTurnStep search_intents m t1 = entityTurnStep search_intents m t2) := by
  constructor
  · intro turn h
    unfold get_actions
    rw [if_pos h]
  · intro search_intents m t1 t2 h
    unfold entityTurnStep
    rw [h]

/-- C4, witness for the amended theorem: `get_actions` rejects the concrete
two-frame turn, and the extraction step treats it exactly as the
corresponding one-frame turn. -/
theorem C4_witness :
    get_actions twoFrameTurn = .error .indexError ∧
      entityTurnStep [] [] twoFrameTurn =
        entityTurnStep [] [] ⟨.SYSTEM, "", [sysCallFrame "S" "FindX" ["a"]]⟩ :=
  ⟨C4_amended.1 twoFrameTurn (by decide),
   C4_amended.2 [] [] twoFrameTurn ⟨.SYSTEM, "", [sysCallFrame "S" "FindX" ["a"]]⟩ (by decide)⟩

/-! ## Claim C5 (sorting of the classifier's label buckets) -/

/-- C5: the claim says each label bucket is sorted by the numeric
`dial_sort_key`; in fact the sort loop iterates the OUTER split-keyed dict,
so the buckets stay in corpus traversal order (here `10_00000` before
`2_00000`) and spurious empty lists keyed by split names are created and
sorted instead (visible in the result below); the numeric sort of that bucket
would have produced the other order. -/
theorem C5_bug :
    get_dialogues_by_type cexD mappingD = .ok
      [("train", [("transactional", ["10_00000", "2_00000"]), ("train", [])]),
       ("dev", [("transactional", ["1_00000"]), ("train", []), ("dev", [])]),
       ("test", [("transactional", ["1_00000"]), ("train", []), ("dev", []), ("test", [])])]
    ∧ bucketIds
        [("train", [("transactional", ["10_00000", "2_00000"]), ("train", [])]),
         ("dev", [("transactional", ["1_00000"]), ("train", []), ("dev", [])]),
         ("test", [("transactional", ["1_00000"]), ("train", []), ("dev", []), ("test", [])])]
        "train" "transactional" = ["10_00000", "2_00000"]
    ∧ pySortByDialKey ["10_00000", "2_00000"] = .ok ["2_00000", "10_00000"]
    ∧ ["10_00000", "2_00000"] ≠ ["2_00000", "10_00000"] := by
  decide

/-! ## Claim C1, counterexample -/

/-- C1, counterexample: `dialA1` (train) is classified `search` and its system
turn's frame records a successful `FindX` call mentioning only slot `a`, yet
the FINAL entity-slot set for `(S, FindX)` is `["a", "b"]` — the cross-split
merge in `get_entity_slots_map` is a set UNION, so the final set is not a
subset of that frame's mentions. -/
theorem C1_counterexample :
    classify_dialogue (get_intents_by_type cexA) dialA1 = "search" ∧
      cexA.files .train = [⟨"./train/dialogues_001.json", [dialA1]⟩] ∧
      sysCallTurn "S" "FindX" ["a"] ∈ iterTurns dialA1 false true ∧
      (sysCallTurn "S" "FindX" ["a"]).frames.head? = some (sysCallFrame "S" "FindX" ["a"]) ∧
      (sysCallFrame "S" "FindX" ["a"]).service_call = some ⟨"FindX", []⟩ ∧
      "FindX" ∈ (get_intents_by_type cexA).search ∧
      (sysCallFrame "S" "FindX" ["a"]).service_results ≠ [] ∧
      mentionedSlots (sysCallFrame "S" "FindX" ["a"]) = ["a"] ∧
      get_entity_slots_map cexA = .ok [("S", [("FindX", ["a", "b"])])] ∧
      ¬ (∀ x ∈ ["a", "b"], x ∈ mentionedSlots (sysCallFrame "S" "FindX" ["a"])) := by
  decide

/-! ## Claim C8 (ID-filtered traversal) -/

/-- C8: requesting a single dialogue ID through the ID-filtered split
traversal groups the ID by the backing file reconstructed from the ID's
file-index component, and — when the file has no missing-dialogue condition
and stores the dialogue at the index its ID declares — yields exactly one
`(filepath, dialogue)` pair whose dialogue's ID is the requested one. -/
theorem C8_single_id (c : Corpus) (sp : SplitName) (dial_id fn : String)
    (f : DialFile) (i : Nat) (d : Dialogue)
    (hfn : reconstruct_filename dial_id = .ok fn)
    (hfind : c.findFile (directory ++ "/" ++ sp.str ++ "/" ++ fn) = some f)
    (hnm : fileMissingDialogues f = .ok false)
    (hidx : pyDialIndex dial_id = .ok i)
    (hd : f.dialogues[i]? = some d)
    (hid : d.dialogue_id = dial_id) :
    get_file_map [dial_id] sp =
        .ok [(directory ++ "/" ++ sp.str ++ "/" ++ fn, [dial_id])]
    ∧ split_iterator_only c sp [dial_id] = .ok [(f.path, d)]
    ∧ d.dialogue_id = dial_id := by
  have h1 : get_file_map [dial_id] sp =
      .ok [(directory ++ "/" ++ sp.str ++ "/" ++ fn, [dial_id])] := by
    unfold get_file_map
    simp [hfn, alUpd, except_bind_ok]
  refine ⟨h1, ?_, hid⟩
  have hset : pySetOf [dial_id] = [dial_id] := by
    simp [pySetOf, pyInsert]
  have h2 : file_iterator_file f [dial_id] = .ok [(f.path, d)] := by
    unfold file_iterator_file
    rw [hnm, except_bind_ok]
    rw [if_pos (by simp)]
    rw [if_pos (by simp)]
    simp [List.mapM, List.mapM.loop, hidx, hd, except_bind_ok, except_pure]
  have h3 : file_iterator c (directory ++ "/" ++ sp.str ++ "/" ++ fn) (pySetOf [dial_id]) =
      .ok [(f.path, d)] := by
    unfold file_iterator
    rw [hfind, hset]
    exact h2
  unfold split_iterator_only
  rw [if_pos (by simp)]
  rw [h1, except_bind_ok]
  simp only [List.foldlM_cons, List.foldlM_nil]
  rw [h3]
  simp [except_bind_ok, except_pure]

/-- C8, witness: in the corpus `wit8`, requesting `5_00023` yields exactly the
one pair backed by `dialogues_005.json`. -/
theorem C8_witness :
    get_file_map ["5_00023"] .train = .ok [("./train/dialogues_005.json", ["5_00023"])]
    ∧ split_iterator_only wit8 .train ["5_00023"] =
        .ok [("./train/dialogues_005.json", ⟨"5_00023", [], []⟩)]
    ∧ (⟨"5_00023", [], []⟩ : Dialogue).dialogue_id = "5_00023" :=
  C8_single_id wit8 .train "5_00023" "dialogues_005.json" file8 23 ⟨"5_00023", [], []⟩
    (by decide) (by decide) (by decide) (by decide) (by decide) (by decide)

/-! ## Claim C10 (the multiple-services dialogue listing) -/

theorem alGetD_foldl_upd {β : Type} (key val : β → String)
    (l : List β) (m0 : List (String × List String)) (k : String) :
    (alGet (l.foldl (fun m p => alUpd m (key p) [] (fun ids => ids ++ [val p])) m0) k).getD []
      = ((alGet m0 k).getD []) ++ (l.filter (fun p => key p == k)).map val := by
  induction l generalizing m0 with
  | nil => simp
  | cons p rest ih =>
    simp only [List.foldl_cons, ih, List.filter_cons]
    by_cases h : key p = k
    · rw [alGet_alUpd]
      simp [h]
    · rw [alGet_alUpd]
      rw [if_neg (fun hc : k = key p => h hc.symm)]
      have hb : (key p == k) = false := by
        simp [h]
      rw [hb]
      simp

theorem mem_split_iterator_all (c : Corpus) (sp : SplitName) (p : String × Dialogue) :
    p ∈ split_iterator_all c sp ↔
      ∃ f ∈ c.files sp, p.1 = f.path ∧ p.2 ∈ f.dialogues := by
  unfold split_iterator_all
  simp only [List.mem_flatMap, List.mem_map]
  constructor
  · rintro ⟨f, hf, d, hd, rfl⟩
    exact ⟨f, hf, rfl, hd⟩
  · obtain ⟨p1, p2⟩ := p
    rintro ⟨f, hf, rfl, hd⟩
    exact ⟨f, hf, p2, hd, rfl⟩

theorem splitName_str_inj : ∀ s s' : SplitName, s.str = s'.str → s = s' := by
  intro s s' h
  cases s <;> cases s' <;> first
    | rfl
    | exact absurd h (by decide)

/-- C10: the "multiple services" listing never inspects the dialogues'
`services` lists — for every split it contains the ID of EVERY dialogue of
that split, in corpus order (so single-service dialogues are included too). -/
theorem C10_lists_every_dialogue (c : Corpus)
    (hpaths : ∀ sp : SplitName, ∀ f ∈ c.files sp, splitFromPath f.path = sp.str)
    (sp : SplitName) :
    (alGet (get_multiple_services_dialogues c) sp.str).getD [] =
      (split_iterator_all c sp).map (fun p => p.2.dialogue_id) := by
  have hkey : ∀ sp' : SplitName, ∀ p ∈ split_iterator_all c sp',
      splitFromPath p.1 = sp'.str := by
    intro sp' p hp
    obtain ⟨f, hf, hp1, _⟩ := (mem_split_iterator_all c sp' p).mp hp
    rw [hp1]
    exact hpaths sp' f hf
  have hfilter : ∀ sp' : SplitName,
      (split_iterator_all c sp').filter (fun p => splitFromPath p.1 == sp.str) =
        if sp' = sp then split_iterator_all c sp' else [] := by
    intro sp'
    by_cases h : sp' = sp
    · subst h
      rw [if_pos rfl]
      apply List.filter_eq_self.mpr
      intro p hp
      simp [hkey sp' p hp]
    · rw [if_neg h]
      apply List.filter_eq_nil_iff.mpr
      intro p hp
      rw [hkey sp' p hp]
      simp only [beq_iff_eq]
      exact fun hc => h (splitName_str_inj sp' sp hc)
  unfold get_multiple_services_dialogues corpus_iterator
  rw [alGetD_foldl_upd (fun p => splitFromPath p.1) (fun p => p.2.dialogue_id)
    (SPLIT_NAMES_data.flatMap fun split => split_iterator_all c split) [] sp.str]
  simp only [SPLIT_NAMES_data, List.flatMap_cons, List.flatMap_nil, List.append_nil,
    List.filter_append, alGet, List.find?_nil, Option.map_none, Option.getD_none,
    List.nil_append]
  rw [hfilter .train, hfilter .test, hfilter .dev]
  cases sp with
  | train => simp
  | test => simp
  | dev => simp

/-- C10, witness: in `cexD` (whose dialogues declare two, one, one and zero
services respectively) the listing contains every dialogue ID of the train
split in corpus order. -/
theorem C10_witness :
    (alGet (get_multiple_services_dialogues cexD) "train").getD [] =
      ["10_00000", "2_00000"] :=
  (C10_lists_every_dialogue cexD (by decide) .train).trans (by decide)

/-! ## Claim C6 (the both-flags intent-type filter) -/

theorem mem_filterFold (ti si : List String) (t s : Bool) (l : List (String × Dialogue))
    (m0 : List (String × List String)) (fp x : String) :
    x ∈ (alGet (l.foldl (filterStep ti si t s) m0) fp).getD [] ↔
      x ∈ (alGet m0 fp).getD [] ∨
        ∃ p ∈ l, p.1 = fp ∧ p.2.dialogue_id = x ∧
          filterCond ti si t s (get_dialogue_intents p.2 true) = true := by
  induction l generalizing m0 with
  | nil => simp
  | cons p rest ih =>
    simp only [List.foldl_cons, ih, List.mem_cons]
    unfold filterStep
    by_cases hc : filterCond ti si t s (get_dialogue_intents p.2 true) = true
    · rw [if_pos hc, alGet_alUpd]
      by_cases hfp : fp = p.1
      · subst hfp
        rw [if_pos rfl]
        simp only [Option.getD_some, mem_pyInsert]
        constructor
        · rintro ((rfl | hin) | hex)
          · exact Or.inr ⟨p, Or.inl rfl, rfl, rfl, hc⟩
          · exact Or.inl hin
          · rcases hex with ⟨q, hq, h1, h2, h3⟩
            exact Or.inr ⟨q, Or.inr hq, h1, h2, h3⟩
        · rintro (hin | ⟨q, (rfl | hq), h1, h2, h3⟩)
          · exact Or.inl (Or.inr hin)
          · exact Or.inl (Or.inl h2.symm)
          · exact Or.inr ⟨q, hq, h1, h2, h3⟩
      · rw [if_neg hfp]
        constructor
        · rintro (hin | ⟨q, hq, h1, h2, h3⟩)
          · exact Or.inl hin
          · exact Or.inr ⟨q, Or.inr hq, h1, h2, h3⟩
        · rintro (hin | ⟨q, (rfl | hq), h1, h2, h3⟩)
          · exact Or.inl hin
          · exact absurd h1.symm hfp
          · exact Or.inr ⟨q, hq, h1, h2, h3⟩
    · rw [if_neg hc]
      constructor
      · rintro (hin | ⟨q, hq, h1, h2, h3⟩)
        · exact Or.inl hin
        · exact Or.inr ⟨q, Or.inr hq, h1, h2, h3⟩
      · rintro (hin | ⟨q, (rfl | hq), h1, h2, h3⟩)
        · exact Or.inl hin
        · exact absurd h3 hc
        · exact Or.inr ⟨q, hq, h1, h2, h3⟩

theorem filterCond_both (ti si I : List String) :
    filterCond ti si true true I = (!pySubset I ti && !pySubset I si) := rfl

theorem filterCond_both_iff (ti si I : List String) :
    filterCond ti si true true I = true ↔
      ¬ (∀ i ∈ I, i ∈ ti) ∧ ¬ (∀ i ∈ I, i ∈ si) := by
  rw [filterCond_both]
  simp only [Bool.and_eq_true, Bool.not_eq_true']
  constructor
  · rintro ⟨h1, h2⟩
    constructor
    · intro hall
      rw [pySubset_iff.mpr hall] at h1
      cases h1
    · intro hall
      rw [pySubset_iff.mpr hall] at h2
      cases h2
  · rintro ⟨h1, h2⟩
    constructor
    · cases hb : pySubset I ti with
      | false => rfl
      | true => exact absurd (pySubset_iff.mp hb) h1
    · cases hb : pySubset I si with
      | false => rfl
      | true => exact absurd (pySubset_iff.mp hb) h2

/-- C6: when both flags are set, `filter_by_intent_type` returns, per backing
file, exactly the dialogues whose (non-`NONE`) intent set is a subset of
NEITHER the transactional group NOR the search group — the genuinely mixed
dialogues, not the union of the two single-group subset results. -/
theorem C6_mixed_filter (c : Corpus) (sp : SplitName) (m : List (String × List String))
    (hok : filter_by_intent_type c sp true true = .ok m) (fp x : String) :
    x ∈ (alGet m fp).getD [] ↔
      ∃ f ∈ c.files sp, f.path = fp ∧ ∃ d ∈ f.dialogues, d.dialogue_id = x ∧
        ¬ (∀ i ∈ get_dialogue_intents d true, i ∈ (get_intents_by_type c).transactional) ∧
        ¬ (∀ i ∈ get_dialogue_intents d true, i ∈ (get_intents_by_type c).search) := by
  have hm : m = (split_iterator_all c sp).foldl
      (filterStep (get_intents_by_type c).transactional (get_intents_by_type c).search
        true true) [] := by
    unfold filter_by_intent_type at hok
    rw [if_neg (by simp)] at hok
    exact (Except.ok.inj hok).symm
  rw [hm, mem_filterFold]
  simp only [alGet_nil, Option.getD_none, List.not_mem_nil, false_or]
  constructor
  · rintro ⟨p, hp, h1, h2, h3⟩
    obtain ⟨f, hf, hp1, hp2⟩ := (mem_split_iterator_all c sp p).mp hp
    refine ⟨f, hf, by rw [← hp1, h1], p.2, hp2, h2, ?_⟩
    exact (filterCond_both_iff _ _ _).mp h3
  · rintro ⟨f, hf, hpath, d, hd, hid, hcond⟩
    refine ⟨(f.path, d), (mem_split_iterator_all c sp (f.path, d)).mpr ⟨f, hf, rfl, hd⟩,
      hpath, hid, ?_⟩
    exact (filterCond_both_iff _ _ _).mpr hcond

/-- C6, witness: in `cexE` the dialogue `1_00000` mixes the transactional
intent `Buy` with the search intent `Find`, and the both-flags filter
selects it. -/
theorem C6_witness :
    "1_00000" ∈ (alGet [("./train/dialogues_001.json", ["1_00000"])]
      "./train/dialogues_001.json").getD [] :=
  (C6_mixed_filter cexE .train [("./train/dialogues_001.json", ["1_00000"])]
      (by decide) "./train/dialogues_001.json" "1_00000").mpr
    ⟨⟨"./train/dialogues_001.json", [⟨"1_00000", ["S"], [userTurn "Buy", userTurn "Find"]⟩]⟩,
      by decide, rfl,
      ⟨"1_00000", ["S"], [userTurn "Buy", userTurn "Find"]⟩, by decide, rfl,
      by decide, by decide⟩

/-! ## Claim C7 (classifier: flags, labels, buckets) -/

theorem classifyTurnFlags_spec (tl : List String) (turn : Turn) (fl : Bool × Bool) :
    classifyTurnFlags tl turn fl =
      (fl.1 || turn.frames.any (frameFlagsTrans tl),
       fl.2 || turn.frames.any (frameFlagsSearch tl)) := by
  unfold classifyTurnFlags
  induction turn.frames generalizing fl with
  | nil => simp
  | cons fr rest ih =>
    simp only [List.foldl_cons, List.any_cons, ih]
    unfold classifyFrameStep frameFlagsTrans frameFlagsSearch
    by_cases h0 : fr.state.active_intent = "NONE"
    · simp [h0]
    · by_cases h1 : fr.state.active_intent ∈ tl
      · simp only [if_neg h0, if_pos h1]
        simp [h0, h1, Bool.or_assoc]
      · simp only [if_neg h0, if_neg h1]
        simp [h0, h1, Bool.or_assoc]

theorem classifyFlags_spec (tl : List String) (turns : List Turn) (fl : Bool × Bool) :
    classifyFlags tl turns fl =
      (fl.1 || turns.any (fun t => t.frames.any (frameFlagsTrans tl)),
       fl.2 || turns.any (fun t => t.frames.any (frameFlagsSearch tl))) := by
  induction turns generalizing fl with
  | nil => simp [classifyFlags]
  | cons turn rest ih =>
    unfold classifyFlags
    rw [classifyTurnFlags_spec]
    by_cases hb : (fl.1 || turn.frames.any (frameFlagsTrans tl)) = true ∧
        (fl.2 || turn.frames.any (frameFlagsSearch tl)) = true
    · rw [if_pos (by rw [hb.1, hb.2]; rfl)]
      simp only [List.any_cons]
      rw [← Bool.or_assoc, ← Bool.or_assoc, hb.1, hb.2]
      simp
    · rw [if_neg (by
        intro hc
        rw [Bool.and_eq_true] at hc
        exact hb hc)]
      rw [ih]
      simp [List.any_cons, Bool.or_assoc]

theorem dbtLabel_cases (flags : Bool × Bool) :
    dbtLabel flags = "transactional" ∨ dbtLabel flags = "search" ∨
      dbtLabel flags = "mixed_intent" := by
  obtain ⟨t, s⟩ := flags
  cases t <;> cases s <;> simp [dbtLabel]

theorem classify_dialogue_cases (mapping : IntentsByType) (d : Dialogue) :
    classify_dialogue mapping d = "transactional" ∨ classify_dialogue mapping d = "search" ∨
      classify_dialogue mapping d = "mixed_intent" := by
  unfold classify_dialogue
  exact dbtLabel_cases _

theorem classify_dialogue_none (mapping : IntentsByType) (d : Dialogue)
    (h : ∀ t ∈ iterTurns d true false, ∀ fr ∈ t.frames, fr.state.active_intent = "NONE") :
    classify_dialogue mapping d = "mixed_intent" := by
  unfold classify_dialogue
  rw [classifyFlags_spec]
  unfold dbtLabel
  have hany : ∀ q : Frame → Bool,
      (∀ fr : Frame, fr.state.active_intent = "NONE" → q fr = false) →
      (iterTurns d true false).any (fun t => t.frames.any q) = false := by
    intro q hq
    refine List.any_eq_false.mpr ?_
    intro t ht hc
    have hc' : t.frames.any q = true := hc
    obtain ⟨fr, hfr, hq'⟩ := List.any_eq_true.mp hc'
    rw [hq fr (h t ht fr hfr)] at hq'
    cases hq'
  rw [hany _ (by
    intro fr hfr
    unfold frameFlagsTrans
    rw [hfr]
    rfl)]
  rw [hany _ (by
    intro fr hfr
    unfold frameFlagsSearch
    rw [hfr]
    rfl)]
  rfl

/-! ## Claim C7: bucket bookkeeping of `get_dialogues_by_type` -/

theorem alUpd_keys {α : Type} (m : List (String × α)) (k : String) (dflt : α) (f : α → α) :
    ∀ k' ∈ (alUpd m k dflt f).map (fun p => p.1), k' = k ∨ k' ∈ m.map (fun p => p.1) := by
  induction m with
  | nil =>
    intro k' hk
    simp [alUpd] at hk
    exact Or.inl hk
  | cons p rest ih =>
    intro k' hk
    unfold alUpd at hk
    by_cases h0 : p.1 = k
    · rw [if_pos h0] at hk
      simp only [List.map_cons, List.mem_cons] at hk
      rcases hk with rfl | hk
      · exact Or.inr (by simp)
      · exact Or.inr (by simp [hk])
    · rw [if_neg h0] at hk
      simp only [List.map_cons, List.mem_cons] at hk
      rcases hk with rfl | hk
      · exact Or.inr (by simp)
      · rcases ih k' hk with h | h
        · exact Or.inl h
        · exact Or.inr (by simp [h])

theorem alGet_dbtAppend_other (m : DBT) (s lbl id s' : String) (h : s' ≠ s) :
    alGet (dbtAppend m s lbl id) s' = alGet m s' := by
  unfold dbtAppend
  rw [alGet_alUpd, if_neg h]

theorem alGet2_dbtAppend_same (m : DBT) (s lbl id k : String) :
    (alGet2 (dbtAppend m s lbl id) s k).getD [] =
      (alGet2 m s k).getD [] ++ (if k = lbl then [id] else []) := by
  unfold dbtAppend alGet2
  rw [alGet_alUpd, if_pos rfl]
  dsimp only
  rw [alGet_alUpd]
  by_cases h : k = lbl
  · rw [if_pos h, if_pos h]
    subst h
    cases hov : alGet m s with
    | none => simp [hov, alGet_nil]
    | some inner => simp [hov]
  · rw [if_neg h, if_neg h]
    cases hov : alGet m s with
    | none => simp [hov, alGet_nil]
    | some inner => simp [hov]

theorem alGet2_congr {α : Type} (m m' : List (String × List (String × α))) (k1 k2 : String)
    (h : alGet m' k1 = alGet m k1) : alGet2 m' k1 k2 = alGet2 m k1 k2 := by
  unfold alGet2
  rw [h]

theorem dbtAppendFold_get_other (mapping : IntentsByType) (s : String)
    (l : List (String × Dialogue)) (m0 : DBT) (k1 : String) (h : k1 ≠ s) :
    alGet (l.foldl (fun m p =>
      dbtAppend m s (classify_dialogue mapping p.2) p.2.dialogue_id) m0) k1 = alGet m0 k1 := by
  induction l generalizing m0 with
  | nil => rfl
  | cons p rest ih =>
    simp only [List.foldl_cons]
    rw [ih]
    exact alGet_dbtAppend_other m0 s _ _ k1 h

theorem dbtAppendFold_get2_same (mapping : IntentsByType) (s : String)
    (l : List (String × Dialogue)) (m0 : DBT) (k2 : String) :
    (alGet2 (l.foldl (fun m p =>
        dbtAppend m s (classify_dialogue mapping p.2) p.2.dialogue_id) m0) s k2).getD [] =
      (alGet2 m0 s k2).getD [] ++
        (l.filter (fun p => classify_dialogue mapping p.2 == k2)).map
          (fun p => p.2.dialogue_id) := by
  induction l generalizing m0 with
  | nil => simp
  | cons p rest ih =>
    simp only [List.foldl_cons, List.filter_cons]
    rw [ih, alGet2_dbtAppend_same]
    by_cases h : k2 = classify_dialogue mapping p.2
    · rw [if_pos h]
      have hb : (classify_dialogue mapping p.2 == k2) = true := by
        simp [h]
      rw [hb]
      simp
    · rw [if_neg h]
      have hb : (classify_dialogue mapping p.2 == k2) = false := by
        simp
        exact fun hc => h hc.symm
      rw [hb]
      simp

theorem dbtAppendFold_keys (mapping : IntentsByType) (s : String)
    (l : List (String × Dialogue)) (m0 : DBT) :
    ∀ k ∈ ((l.foldl (fun m p =>
        dbtAppend m s (classify_dialogue mapping p.2) p.2.dialogue_id) m0).map
          (fun p => p.1)),
      k = s ∨ k ∈ m0.map (fun p => p.1) := by
  induction l generalizing m0 with
  | nil =>
    intro k hk
    exact Or.inr hk
  | cons p rest ih =>
    intro k hk
    simp only [List.foldl_cons] at hk
    rcases ih _ k hk with h | h
    · exact Or.inl h
    · rcases alUpd_keys m0 s _ _ k h with h' | h'
      · exact Or.inl h'
      · exact Or.inr h'

theorem sortPassFold_get2 (s : String) (ks : List String) (m0 m' : DBT)
    (hok : ks.foldlM (fun (m : DBT) k => do
        let cur := (alGet2 m s k).getD []
        let sorted ← pySortByDialKey cur
        (.ok (alUpd m s [] (fun inner => alUpd inner k [] (fun _ => sorted))) :
          Except PyErr DBT)) m0 = .ok m')
    (k1 k2 : String) (hk2 : ∀ k ∈ ks, k2 ≠ k) :
    alGet2 m' k1 k2 = alGet2 m0 k1 k2 := by
  induction ks generalizing m0 with
  | nil =>
    simp only [List.foldlM_nil] at hok
    cases hok
    rfl
  | cons k rest ih =>
    simp only [List.foldlM_cons] at hok
    obtain ⟨m1, hm1, hrest⟩ := except_bind_eq_ok hok
    obtain ⟨sorted, _, hm1'⟩ := except_bind_eq_ok hm1
    cases hm1'
    rw [ih _ hrest (fun k' hk' => hk2 k' (List.mem_cons_of_mem _ hk'))]
    by_cases h1 : k1 = s
    · subst h1
      unfold alGet2
      rw [alGet_alUpd, if_pos rfl]
      dsimp only
      rw [alGet_alUpd, if_neg (hk2 k (List.mem_cons_self _ _))]
      cases hov : alGet m0 k1 with
      | none => simp [alGet_nil]
      | some inner => simp
    · apply alGet2_congr
      rw [alGet_alUpd, if_neg h1]

theorem sortPassFold_get_outer (s : String) (ks : List String) (m0 m' : DBT)
    (hok : ks.foldlM (fun (m : DBT) k => do
        let cur := (alGet2 m s k).getD []
        let sorted ← pySortByDialKey cur
        (.ok (alUpd m s [] (fun inner => alUpd inner k [] (fun _ => sorted))) :
          Except PyErr DBT)) m0 = .ok m')
    (k1 : String) (h : k1 ≠ s) :
    alGet m' k1 = alGet m0 k1 := by
  induction ks generalizing m0 with
  | nil =>
    simp only [List.foldlM_nil] at hok
    cases hok
    rfl
  | cons k rest ih =>
    simp only [List.foldlM_cons] at hok
    obtain ⟨m1, hm1, hrest⟩ := except_bind_eq_ok hok
    obtain ⟨sorted, _, hm1'⟩ := except_bind_eq_ok hm1
    cases hm1'
    rw [ih _ hrest]
    rw [alGet_alUpd, if_neg h]

theorem sortPassFold_keys (s : String) (ks : List String) (m0 m' : DBT)
    (hok : ks.foldlM (fun (m : DBT) k => do
        let cur := (alGet2 m s k).getD []
        let sorted ← pySortByDialKey cur
        (.ok (alUpd m s [] (fun inner => alUpd inner k [] (fun _ => sorted))) :
          Except PyErr DBT)) m0 = .ok m') :
    ∀ k ∈ m'.map (fun p => p.1), k = s ∨ k ∈ m0.map (fun p => p.1) := by
  induction ks generalizing m0 with
  | nil =>
    simp only [List.foldlM_nil] at hok
    cases hok
    intro k hk
    exact Or.inr hk
  | cons k rest ih =>
    simp only [List.foldlM_cons] at hok
    obtain ⟨m1, hm1, hrest⟩ := except_bind_eq_ok hok
    obtain ⟨sorted, _, hm1'⟩ := except_bind_eq_ok hm1
    cases hm1'
    intro k' hk'
    rcases ih _ hrest k' hk' with h | h
    · exact Or.inl h
    · rcases alUpd_keys m0 s _ _ k' h with h' | h'
      · exact Or.inl h'
      · exact Or.inr h'

theorem dbtSortPass_fold (m : DBT) (s : String) (m' : DBT)
    (hok : dbtSortPass m s = .ok m') :
    (m.map (fun p => p.1)).foldlM (fun (mm : DBT) k => do
        let cur := (alGet2 mm s k).getD []
        let sorted ← pySortByDialKey cur
        (.ok (alUpd mm s [] (fun inner => alUpd inner k [] (fun _ => sorted))) :
          Except PyErr DBT)) m = .ok m' := by
  unfold dbtSortPass at hok
  by_cases hc : ¬ s ∈ m.map (fun p => p.1) ∧ m.map (fun p => p.1) ≠ []
  · rw [if_pos hc] at hok
    cases hok
  · rw [if_neg hc] at hok
    exact hok

/-- One whole step of `get_dialogues_by_type`'s split loop: append phase plus
(buggy) sort pass. -/
theorem dbtStep_facts (c : Corpus) (mapping : IntentsByType) (split : SplitName)
    (m0 m' : DBT)
    (hok : dbtSortPass (dbtPhase c mapping split m0) split.str = .ok m')
    (lbl : String) (hlbl : ¬ lbl ∈ splitKeyStrings)
    (hkeys : ∀ k ∈ m0.map (fun p => p.1), k ∈ splitKeyStrings) :
    (∀ k1, k1 ≠ split.str → alGet m' k1 = alGet m0 k1)
    ∧ (alGet2 m' split.str lbl).getD [] =
        (alGet2 m0 split.str lbl).getD [] ++
          ((split_iterator_all c split).filter
            (fun p => classify_dialogue mapping p.2 == lbl)).map (fun p => p.2.dialogue_id)
    ∧ (∀ k ∈ m'.map (fun p => p.1), k ∈ splitKeyStrings) := by
  have hf := dbtSortPass_fold _ _ _ hok
  have hsplitkey : split.str ∈ splitKeyStrings := by
    cases split <;> decide
  have hphasekeys : ∀ k ∈ ((dbtPhase c mapping split m0).map (fun p => p.1)),
      k ∈ splitKeyStrings := by
    intro k hk
    rcases dbtAppendFold_keys mapping split.str _ m0 k hk with h | h
    · rw [h]; exact hsplitkey
    · exact hkeys k h
  refine ⟨?_, ?_, ?_⟩
  · intro k1 h1
    rw [sortPassFold_get_outer _ _ _ _ hf k1 h1]
    exact dbtAppendFold_get_other mapping split.str _ m0 k1 h1
  · have hpass := sortPassFold_get2 _ _ _ _ hf split.str lbl
      (fun k hk => fun hc => hlbl (by rw [hc]; exact hphasekeys k hk))
    rw [alGet2] at hpass
    rw [alGet2]
    rw [hpass]
    have := dbtAppendFold_get2_same mapping split.str (split_iterator_all c split) m0 lbl
    rw [alGet2, alGet2] at this
    exact this
  · intro k hk
    rcases sortPassFold_keys _ _ _ _ hf k hk with h | h
    · rw [h]; exact hsplitkey
    · exact hphasekeys k h

theorem alGet2_none {α : Type} (m : List (String × List (String × α))) (k1 k2 : String)
    (h : alGet m k1 = none) : alGet2 m k1 k2 = none := by
  unfold alGet2
  rw [h]

theorem filter_three_length {α : Type} (p : α → String) (l : List α)
    (h3 : ∀ a ∈ l, p a = "transactional" ∨ p a = "search" ∨ p a = "mixed_intent") :
    (l.filter (fun a => p a == "transactional")).length +
      (l.filter (fun a => p a == "search")).length +
      (l.filter (fun a => p a == "mixed_intent")).length = l.length := by
  induction l with
  | nil => simp
  | cons a rest ih =>
    have hrest := ih (fun x hx => h3 x (List.mem_cons_of_mem _ hx))
    simp only [List.filter_cons]
    rcases h3 a (List.mem_cons_self _ _) with h | h | h <;>
      · simp [h]
        omega

/-- C7: every dialogue is appended under exactly one label — each bucket of
`get_dialogues_by_type`'s result holds precisely the dialogues the
classifier maps to that label, the three buckets' sizes add up to the
split's dialogue count, and a dialogue whose user frames never leave the
`NONE` sentinel is classified `mixed_intent` (the default branch), not
`transactional` and not `search`. -/
theorem C7_exactly_one_label (c : Corpus) (mapping : IntentsByType) (m : DBT)
    (hok : get_dialogues_by_type c mapping = .ok m) :
    (∀ sp : SplitName, ∀ lbl : String, ¬ lbl ∈ splitKeyStrings →
      bucketIds m sp.str lbl =
        ((split_iterator_all c sp).filter
          (fun p => classify_dialogue mapping p.2 == lbl)).map (fun p => p.2.dialogue_id))
    ∧ (∀ sp : SplitName,
        (bucketIds m sp.str "transactional").length +
          (bucketIds m sp.str "search").length +
          (bucketIds m sp.str "mixed_intent").length = (split_iterator_all c sp).length)
    ∧ (∀ d : Dialogue,
        (∀ t ∈ iterTurns d true false, ∀ fr ∈ t.frames, fr.state.active_intent = "NONE") →
          classify_dialogue mapping d = "mixed_intent" ∧
          classify_dialogue mapping d ≠ "transactional" ∧
          classify_dialogue mapping d ≠ "search") := by
  unfold get_dialogues_by_type at hok
  simp only [SPLIT_NAMES_meta, List.foldlM_cons, List.foldlM_nil] at hok
  obtain ⟨m1, h1, hok⟩ := except_bind_eq_ok hok
  obtain ⟨m2, h2, hok⟩ := except_bind_eq_ok hok
  obtain ⟨m3, h3, hok⟩ := except_bind_eq_ok hok
  have hm : m3 = m := by
    cases hok
    rfl
  subst hm
  have hbucket : ∀ lbl : String, ¬ lbl ∈ splitKeyStrings → ∀ sp : SplitName,
      bucketIds m3 sp.str lbl =
        ((split_iterator_all c sp).filter
          (fun p => classify_dialogue mapping p.2 == lbl)).map (fun p => p.2.dialogue_id) := by
    intro lbl hlbl sp
    have hkeys0 : ∀ k ∈ ([] : DBT).map (fun p => p.1), k ∈ splitKeyStrings := by
      intro k hk
      cases hk
    have F1 := dbtStep_facts c mapping .train [] m1 h1 lbl hlbl hkeys0
    have F2 := dbtStep_facts c mapping .dev m1 m2 h2 lbl hlbl F1.2.2
    have F3 := dbtStep_facts c mapping .test m2 m3 h3 lbl hlbl F2.2.2
    cases sp with
    | train =>
      simp only [SplitName.str] at F1 F2 F3 ⊢
      have b1 : (alGet2 m1 "train" lbl).getD [] =
          ((split_iterator_all c .train).filter
            (fun p => classify_dialogue mapping p.2 == lbl)).map (fun p => p.2.dialogue_id) := by
        have := F1.2.1
        rw [alGet2_none _ _ _ (alGet_nil _)] at this
        simpa using this
      unfold bucketIds
      rw [alGet2_congr m2 m3 "train" lbl (F3.1 "train" (by decide)),
        alGet2_congr m1 m2 "train" lbl (F2.1 "train" (by decide))]
      exact b1
    | dev =>
      simp only [SplitName.str] at F1 F2 F3 ⊢
      have hnone : alGet m1 "dev" = none := by
        rw [F1.1 "dev" (by decide)]
        rfl
      have b2 : (alGet2 m2 "dev" lbl).getD [] =
          ((split_iterator_all c .dev).filter
            (fun p => classify_dialogue mapping p.2 == lbl)).map (fun p => p.2.dialogue_id) := by
        have := F2.2.1
        rw [alGet2_none _ _ _ hnone] at this
        simpa using this
      unfold bucketIds
      rw [alGet2_congr m2 m3 "dev" lbl (F3.1 "dev" (by decide))]
      exact b2
    | test =>
      simp only [SplitName.str] at F1 F2 F3 ⊢
      have hnone : alGet m2 "test" = none := by
        rw [F2.1 "test" (by decide), F1.1 "test" (by decide)]
        rfl
      have b3 : (alGet2 m3 "test" lbl).getD [] =
          ((split_iterator_all c .test).filter
            (fun p => classify_dialogue mapping p.2 == lbl)).map (fun p => p.2.dialogue_id) := by
        have := F3.2.1
        rw [alGet2_none _ _ _ hnone] at this
        simpa using this
      unfold bucketIds
      exact b3
  refine ⟨fun sp lbl hlbl => hbucket lbl hlbl sp, ?_, ?_⟩
  · intro sp
    rw [hbucket "transactional" (by decide) sp, hbucket "search" (by decide) sp,
      hbucket "mixed_intent" (by decide) sp]
    simp only [List.length_map]
    exact filter_three_length (fun p : String × Dialogue => classify_dialogue mapping p.2) _
      (fun (p : String × Dialogue) _ => classify_dialogue_cases mapping p.2)
  · intro d hd
    have hmix := classify_dialogue_none mapping d hd
    refine ⟨hmix, ?_, ?_⟩
    · rw [hmix]
      decide
    · rw [hmix]
      decide

/-- C7, witness: on `cexD` the three buckets of the train split add up to its
two dialogues, the transactional bucket holds exactly the two `Buy`
dialogues, and the concrete all-`NONE` dialogue is classified
`mixed_intent`. -/
theorem C7_witness :
    bucketIds
        [("train", [("transactional", ["10_00000", "2_00000"]), ("train", [])]),
         ("dev", [("transactional", ["1_00000"]), ("train", []), ("dev", [])]),
         ("test", [("transactional", ["1_00000"]), ("train", []), ("dev", []), ("test", [])])]
        "train" "transactional" =
      ((split_iterator_all cexD .train).filter
        (fun p => classify_dialogue mappingD p.2 == "transactional")).map
          (fun p => p.2.dialogue_id)
    ∧ (bucketIds
        [("train", [("transactional", ["10_00000", "2_00000"]), ("train", [])]),
         ("dev", [("transactional", ["1_00000"]), ("train", []), ("dev", [])]),
         ("test", [("transactional", ["1_00000"]), ("train", []), ("dev", []), ("test", [])])]
        "train" "transactional").length +
      (bucketIds
        [("train", [("transactional", ["10_00000", "2_00000"]), ("train", [])]),
         ("dev", [("transactional", ["1_00000"]), ("train", []), ("dev", [])]),
         ("test", [("transactional", ["1_00000"]), ("train", []), ("dev", []), ("test", [])])]
        "train" "search").length +
      (bucketIds
        [("train", [("transactional", ["10_00000", "2_00000"]), ("train", [])]),
         ("dev", [("transactional", ["1_00000"]), ("train", []), ("dev", [])]),
         ("test", [("transactional", ["1_00000"]), ("train", []), ("dev", []), ("test", [])])]
        "train" "mixed_intent").length = (split_iterator_all cexD .train).length
    ∧ classify_dialogue mappingD dialNone = "mixed_intent" := by
  have h := C7_exactly_one_label cexD mappingD
    [("train", [("transactional", ["10_00000", "2_00000"]), ("train", [])]),
     ("dev", [("transactional", ["1_00000"]), ("train", []), ("dev", [])]),
     ("test", [("transactional", ["1_00000"]), ("train", []), ("dev", []), ("test", [])])]
    (by decide)
  exact ⟨h.1 .train "transactional" (by decide), h.2.1 .train,
    (h.2.2 dialNone (by decide)).1⟩

/-! ## Claim C1, amended: membership of `get_dialogue_intents` -/

theorem mem_frameIntentFold (frames : List Frame) (s : List String) (x : String) :
    x ∈ frames.foldl (intentOfFrameStep true) s ↔
      x ∈ s ∨ ∃ fr ∈ frames, fr.state.active_intent = x ∧ x ≠ "NONE" := by
  induction frames generalizing s with
  | nil => simp
  | cons fr rest ih =>
    simp only [List.foldl_cons, ih, List.mem_cons]
    unfold intentOfFrameStep
    rw [if_pos rfl]
    by_cases h0 : fr.state.active_intent = "NONE"
    · rw [if_pos h0]
      constructor
      · rintro (hs | ⟨g, hg, h1, h2⟩)
        · exact Or.inl hs
        · exact Or.inr ⟨g, Or.inr hg, h1, h2⟩
      · rintro (hs | ⟨g, (rfl | hg), h1, h2⟩)
        · exact Or.inl hs
        · rw [h0] at h1
          exact absurd h1.symm h2
        · exact Or.inr ⟨g, hg, h1, h2⟩
    · rw [if_neg h0]
      simp only [mem_pyInsert]
      constructor
      · rintro ((rfl | hs) | ⟨g, hg, h1, h2⟩)
        · exact Or.inr ⟨fr, Or.inl rfl, rfl, h0⟩
        · exact Or.inl hs
        · exact Or.inr ⟨g, Or.inr hg, h1, h2⟩
      · rintro (hs | ⟨g, (rfl | hg), h1, h2⟩)
        · exact Or.inl (Or.inr hs)
        · exact Or.inl (Or.inl h1.symm)
        · exact Or.inr ⟨g, hg, h1, h2⟩

theorem mem_turnIntentFold (turns : List Turn) (s : List String) (x : String) :
    x ∈ turns.foldl (fun intents turn =>
        turn.frames.foldl (intentOfFrameStep true) intents) s ↔
      x ∈ s ∨ ∃ t ∈ turns, ∃ fr ∈ t.frames, fr.state.active_intent = x ∧ x ≠ "NONE" := by
  induction turns generalizing s with
  | nil => simp
  | cons t rest ih =>
    simp only [List.foldl_cons, ih, mem_frameIntentFold, List.mem_cons]
    constructor
    · rintro ((hs | ⟨fr, hfr, h1, h2⟩) | ⟨u, hu, fr, hfr, h1, h2⟩)
      · exact Or.inl hs
      · exact Or.inr ⟨t, Or.inl rfl, fr, hfr, h1, h2⟩
      · exact Or.inr ⟨u, Or.inr hu, fr, hfr, h1, h2⟩
    · rintro (hs | ⟨u, (rfl | hu), fr, hfr, h1, h2⟩)
      · exact Or.inl (Or.inl hs)
      · exact Or.inl (Or.inr ⟨fr, hfr, h1, h2⟩)
      · exact Or.inr ⟨u, hu, fr, hfr, h1, h2⟩

theorem mem_get_dialogue_intents (d : Dialogue) (x : String) :
    x ∈ get_dialogue_intents d true ↔
      ∃ t ∈ iterTurns d true false, ∃ fr ∈ t.frames,
        fr.state.active_intent = x ∧ x ≠ "NONE" := by
  unfold get_dialogue_intents
  rw [mem_turnIntentFold]
  simp

/-! ## Claim C1, amended: `classified search/mixed implies selected by the filters` -/

theorem any_transFlag_iff (tl : List String) (d : Dialogue) :
    ((iterTurns d true false).any (fun t => t.frames.any (frameFlagsTrans tl)) = true) ↔
      ∃ i ∈ get_dialogue_intents d true, i ∈ tl := by
  simp only [List.any_eq_true]
  constructor
  · rintro ⟨t, ht, fr, hfr, hq⟩
    unfold frameFlagsTrans at hq
    simp only [Bool.and_eq_true, Bool.not_eq_true', beq_eq_false_iff_ne, ne_eq,
      decide_eq_true_eq] at hq
    exact ⟨fr.state.active_intent,
      (mem_get_dialogue_intents d _).mpr ⟨t, ht, fr, hfr, rfl, hq.1⟩, hq.2⟩
  · rintro ⟨i, hi, hmem⟩
    obtain ⟨t, ht, fr, hfr, hai, hne⟩ := (mem_get_dialogue_intents d i).mp hi
    refine ⟨t, ht, fr, hfr, ?_⟩
    unfold frameFlagsTrans
    rw [hai]
    simp [hne, hmem]

theorem any_searchFlag_iff (tl : List String) (d : Dialogue) :
    ((iterTurns d true false).any (fun t => t.frames.any (frameFlagsSearch tl)) = true) ↔
      ∃ i ∈ get_dialogue_intents d true, ¬ i ∈ tl := by
  simp only [List.any_eq_true]
  constructor
  · rintro ⟨t, ht, fr, hfr, hq⟩
    unfold frameFlagsSearch at hq
    simp only [Bool.and_eq_true, Bool.not_eq_true', beq_eq_false_iff_ne, ne_eq,
      decide_eq_false_iff_not] at hq
    exact ⟨fr.state.active_intent,
      (mem_get_dialogue_intents d _).mpr ⟨t, ht, fr, hfr, rfl, hq.1⟩, hq.2⟩
  · rintro ⟨i, hi, hmem⟩
    obtain ⟨t, ht, fr, hfr, hai, hne⟩ := (mem_get_dialogue_intents d i).mp hi
    refine ⟨t, ht, fr, hfr, ?_⟩
    unfold frameFlagsSearch
    rw [hai]
    simp [hne, hmem]

theorem filterCond_searchOnly (ti si I : List String) :
    filterCond ti si false true I = pySubset I si := rfl

theorem classified_cond (c : Corpus) (d : Dialogue)
    (h : classify_dialogue (get_intents_by_type c) d = "search" ∨
         classify_dialogue (get_intents_by_type c) d = "mixed_intent") :
    filterCond (get_intents_by_type c).transactional (get_intents_by_type c).search
        false true (get_dialogue_intents d true) = true ∨
      filterCond (get_intents_by_type c).transactional (get_intents_by_type c).search
        true true (get_dialogue_intents d true) = true := by
  by_cases hsub : pySubset (get_dialogue_intents d true) (get_intents_by_type c).search = true
  · left
    rw [filterCond_searchOnly]
    exact hsub
  · right
    have hcl : classify_dialogue (get_intents_by_type c) d = dbtLabel
        ((iterTurns d true false).any (fun t =>
          t.frames.any (frameFlagsTrans (get_intents_by_type c).transactional)),
         (iterTurns d true false).any (fun t =>
          t.frames.any (frameFlagsSearch (get_intents_by_type c).transactional))) := by
      unfold classify_dialogue
      rw [classifyFlags_spec]
      simp
    have hti : pySubset (get_dialogue_intents d true)
        (get_intents_by_type c).transactional = false := by
      cases hS : (iterTurns d true false).any (fun t =>
          t.frames.any (frameFlagsSearch (get_intents_by_type c).transactional)) with
      | true =>
        obtain ⟨i, hi, hnot⟩ := (any_searchFlag_iff _ d).mp hS
        cases hb : pySubset (get_dialogue_intents d true)
            (get_intents_by_type c).transactional with
        | false => rfl
        | true => exact absurd (pySubset_iff.mp hb i hi) hnot
      | false =>
        cases hT : (iterTurns d true false).any (fun t =>
            t.frames.any (frameFlagsTrans (get_intents_by_type c).transactional)) with
        | true =>
          rw [hcl, hT, hS] at h
          rcases h with h | h <;> exact absurd h (by decide)
        | false =>
          have hempty : ∀ i ∈ get_dialogue_intents d true, False := by
            intro i hi
            by_cases hmem : i ∈ (get_intents_by_type c).transactional
            · have : ((iterTurns d true false).any (fun t =>
                  t.frames.any (frameFlagsTrans (get_intents_by_type c).transactional))
                    = true) := (any_transFlag_iff _ d).mpr ⟨i, hi, hmem⟩
              rw [hT] at this
              cases this
            · have : ((iterTurns d true false).any (fun t =>
                  t.frames.any (frameFlagsSearch (get_intents_by_type c).transactional))
                    = true) := (any_searchFlag_iff _ d).mpr ⟨i, hi, hmem⟩
              rw [hS] at this
              cases this
          have : pySubset (get_dialogue_intents d true) (get_intents_by_type c).search
              = true :=
            pySubset_iff.mpr (fun i hi => absurd (hempty i hi) not_false)
          exact absurd this hsub
    rw [filterCond_both, hti]
    have hsub' : pySubset (get_dialogue_intents d true) (get_intents_by_type c).search
        = false := by
      cases hb : pySubset (get_dialogue_intents d true) (get_intents_by_type c).search with
      | false => rfl
      | true => exact absurd hb hsub
    rw [hsub']
    rfl

/-! ## Claim C1, amended: the merged filter map -/

theorem alGet_append {α : Type} (a b : List (String × α)) (k : String) :
    alGet (a ++ b) k = match alGet a k with
      | some v => some v
      | none => alGet b k := by
  induction a with
  | nil => simp [alGet]
  | cons p rest ih =>
    by_cases h : p.1 = k
    · simp [alGet, h]
    · have h' : (p.1 == k) = false := by simp [h]
      simp only [List.cons_append]
      unfold alGet
      unfold alGet at ih
      simp only [List.find?_cons, h']
      exact ih

theorem alGet_cons {α : Type} (p : String × α) (rest : List (String × α)) (k : String) :
    alGet (p :: rest) k = if p.1 = k then some p.2 else alGet rest k := by
  by_cases h : p.1 = k
  · simp [alGet, List.find?_cons, h]
  · simp [alGet, List.find?_cons, h]

theorem alGet_mem {α : Type} (m : List (String × α)) (k : String) (v : α)
    (h : alGet m k = some v) : (k, v) ∈ m := by
  induction m with
  | nil => cases h
  | cons p rest ih =>
    rw [alGet_cons] at h
    by_cases hp : p.1 = k
    · rw [if_pos hp] at h
      have hv : v = p.2 := (Option.some.inj h).symm
      rw [← hp, hv]
      exact List.mem_cons_self _ _
    · rw [if_neg hp] at h
      exact List.mem_cons_of_mem _ (ih h)

theorem alUpd_keys_nodup {α : Type} (m : List (String × α)) (k : String) (dflt : α)
    (f : α → α) (h : (m.map (fun p => p.1)).Nodup) :
    ((alUpd m k dflt f).map (fun p => p.1)).Nodup := by
  induction m with
  | nil => simp [alUpd]
  | cons p rest ih =>
    rw [List.map_cons, List.nodup_cons] at h
    unfold alUpd
    by_cases h0 : p.1 = k
    · rw [if_pos h0]
      rw [List.map_cons, List.nodup_cons]
      exact h
    · rw [if_neg h0]
      rw [List.map_cons, List.nodup_cons]
      refine ⟨?_, ih h.2⟩
      intro hc
      rcases alUpd_keys rest k dflt f p.1 hc with h' | h'
      · exact h0 h'
      · exact h.1 h'

theorem filterFold_keys_nodup (ti si : List String) (t s : Bool)
    (l : List (String × Dialogue)) (m0 : List (String × List String))
    (h : (m0.map (fun p => p.1)).Nodup) :
    (((l.foldl (filterStep ti si t s) m0)).map (fun p => p.1)).Nodup := by
  induction l generalizing m0 with
  | nil => exact h
  | cons p rest ih =>
    simp only [List.foldl_cons]
    apply ih
    unfold filterStep
    by_cases hc : filterCond ti si t s (get_dialogue_intents p.2 true) = true
    · rw [if_pos hc]
      exact alUpd_keys_nodup _ _ _ _ h
    · rw [if_neg hc]
      exact h

theorem mem_mergeFiltered (b a : List (String × List String)) (fp x : String)
    (hb : (b.map (fun p => p.1)).Nodup) :
    x ∈ (alGet (mergeFiltered a b) fp).getD [] ↔
      x ∈ (alGet a fp).getD [] ∨ x ∈ (alGet b fp).getD [] := by
  induction b generalizing a with
  | nil => simp [mergeFiltered, alGet_nil]
  | cons e rest ih =>
    rw [List.map_cons, List.nodup_cons] at hb
    have hstep : mergeFiltered a (e :: rest) = mergeFiltered
        (match alGet a e.1 with
          | some ids => alSet a e.1 (pyUnion ids e.2)
          | none => a ++ [(e.1, e.2)]) rest := by
      unfold mergeFiltered
      rw [List.foldl_cons]
    rw [hstep, ih _ hb.2]
    have hrest : alGet rest e.1 = none := by
      cases hr : alGet rest e.1 with
      | none => rfl
      | some v =>
        have := alGet_mem rest e.1 v hr
        exact absurd (List.mem_map.mpr ⟨(e.1, v), this, rfl⟩) hb.1
    by_cases hfp : fp = e.1
    · subst hfp
      rw [alGet_cons, if_pos rfl, hrest]
      cases hov : alGet a e.1 with
      | some ids =>
        simp only [hov]
        have hset : alGet (alSet a e.1 (pyUnion ids e.2)) e.1 = some (pyUnion ids e.2) := by
          rw [alGet_alSet, if_pos rfl]
        rw [hset]
        simp only [Option.getD_some, Option.getD_none, List.not_mem_nil, or_false,
          mem_pyUnion]
      | none =>
        simp only [hov]
        have happ : alGet (a ++ [(e.1, e.2)]) e.1 = some e.2 := by
          rw [alGet_append, hov, alGet_cons, if_pos rfl]
        rw [happ]
        simp
    · rw [alGet_cons, if_neg (fun hc : e.1 = fp => hfp hc.symm)]
      cases hov : alGet a e.1 with
      | some ids =>
        simp only [hov]
        have hset : alGet (alSet a e.1 (pyUnion ids e.2)) fp = alGet a fp := by
          rw [alGet_alSet, if_neg hfp]
        rw [hset]
      | none =>
        simp only [hov]
        have happ : alGet (a ++ [(e.1, e.2)]) fp = alGet a fp := by
          rw [alGet_append]
          cases h2 : alGet a fp with
          | some v => rfl
          | none =>
            rw [alGet_cons, if_neg (fun hc : e.1 = fp => hfp hc.symm)]
            rfl
        rw [happ]

/-! ## Claim C1, amended: the file scan yields each selected dialogue -/

theorem fileWF_not_missing (f : DialFile) (hwf : FileWF f) (hne : f.dialogues ≠ []) :
    fileMissingDialogues f = .ok false := by
  unfold fileMissingDialogues
  have hlen : 0 < f.dialogues.length := List.length_pos.mpr hne
  have hlast : f.dialogues.getLast? =
      some (f.dialogues.get ⟨f.dialogues.length - 1, by omega⟩) := by
    rw [List.getLast?_eq_getElem?]
    rw [List.getElem?_eq_getElem (by omega)]
    rfl
  rw [hlast]
  dsimp only
  rw [hwf ⟨f.dialogues.length - 1, by omega⟩, except_bind_ok]
  have : f.dialogues.length - 1 + 1 = f.dialogues.length := by omega
  rw [this]
  simp

theorem mapM_ok_all {α β : Type} (g : α → Except PyErr β) (l : List α)
    (h : ∀ x ∈ l, ∃ y, g x = .ok y) :
    ∃ ys, l.mapM g = .ok ys ∧ ∀ x ∈ l, ∀ y, g x = .ok y → y ∈ ys := by
  induction l with
  | nil =>
    refine ⟨[], rfl, ?_⟩
    intro x hx
    cases hx
  | cons a rest ih =>
    obtain ⟨ya, hya⟩ := h a (List.mem_cons_self _ _)
    obtain ⟨ys, hys, hmem⟩ := ih (fun x hx => h x (List.mem_cons_of_mem _ hx))
    refine ⟨ya :: ys, ?_, ?_⟩
    · rw [List.mapM_cons, hya, except_bind_ok, hys, except_bind_ok]
      rfl
    · intro x hx y hy
      rcases hx with _ | hx
      · rw [hya] at hy
        cases hy
        exact List.mem_cons_self _ _
      · exact List.mem_cons_of_mem _ (hmem x (by assumption) y hy)

theorem file_iterator_file_yields (f : DialFile) (hwf : FileWF f) (ro : List String)
    (hsub : ∀ x ∈ ro, ∃ j : Fin f.dialogues.length, (f.dialogues.get j).dialogue_id = x)
    (d : Dialogue) (hd : d ∈ f.dialogues) (hmem : d.dialogue_id ∈ ro) :
    ∃ pairs, file_iterator_file f ro = .ok pairs ∧ (f.path, d) ∈ pairs := by
  have hne : f.dialogues ≠ [] := by
    intro hc
    rw [hc] at hd
    cases hd
  have hro : ro ≠ [] := by
    intro hc
    rw [hc] at hmem
    cases hmem
  have hall : ∀ x ∈ ro, ∃ y, (fun dial_id => do
      let dial_idx ← pyDialIndex dial_id
      match f.dialogues[dial_idx]? with
      | some d => (.ok (f.path, d) : Except PyErr (String × Dialogue))
      | none => .error .indexError) x = .ok y := by
    intro x hx
    obtain ⟨j, hj⟩ := hsub x hx
    refine ⟨(f.path, f.dialogues.get j), ?_⟩
    rw [← hj]
    dsimp only
    rw [hwf j, except_bind_ok]
    rw [List.getElem?_eq_getElem j.isLt]
    rfl
  obtain ⟨ys, hys, hysmem⟩ := mapM_ok_all _ ro hall
  refine ⟨ys, ?_, ?_⟩
  · unfold file_iterator_file
    rw [fileWF_not_missing f hwf hne, except_bind_ok]
    rw [if_pos hro]
    rw [if_pos (show (!false) = true from rfl)]
    exact hys
  · obtain ⟨i, hi⟩ := List.mem_iff_get.mp hd
    refine hysmem d.dialogue_id hmem (f.path, d) ?_
    dsimp only
    rw [← hi, hwf i, except_bind_ok]
    rw [List.getElem?_eq_getElem i.isLt]
    have hgd : f.dialogues[(i : Nat)] = d := by
      rw [← hi]
      exact (List.get_eq_getElem _ _).symm
    rw [hgd, hi]

theorem mem_allFiles (c : Corpus) (sp : SplitName) (f : DialFile)
    (hf : f ∈ c.files sp) : f ∈ allFiles c := by
  unfold allFiles SPLIT_NAMES_data
  cases sp with
  | train => simp only [List.map_cons, List.map_nil, List.flatten]; exact
      List.mem_append_left _ hf
  | test => simp only [List.map_cons, List.map_nil, List.flatten]; exact
      List.mem_append_right _ (List.mem_append_left _ hf)
  | dev => simp only [List.map_cons, List.map_nil, List.flatten]; exact
      List.mem_append_right _ (List.mem_append_right _ (by simpa using hf))

theorem find?_path_self (l : List DialFile) (hnd : (l.map (fun f => f.path)).Nodup)
    (f : DialFile) (hf : f ∈ l) : l.find? (fun g => g.path == f.path) = some f := by
  induction l with
  | nil => cases hf
  | cons g rest ih =>
    rw [List.map_cons, List.nodup_cons] at hnd
    rcases hf with _ | hf
    · have hb : (f.path == f.path) = true := by simp
      rw [List.find?_cons, hb]
    · have hne : (g.path == f.path) = false := by
        simp only [beq_eq_false_iff_ne, ne_eq]
        intro hc
        exact hnd.1 (List.mem_map.mpr ⟨f, by assumption, hc.symm⟩)
      rw [List.find?_cons, hne]
      exact ih hnd.2 (by assumption)

theorem findFile_self (c : Corpus) (hnd : ((allFiles c).map (fun f => f.path)).Nodup)
    (f : DialFile) (hf : f ∈ allFiles c) : c.findFile f.path = some f :=
  find?_path_self _ hnd f hf

/-! ## Claim C1, amended: the running-intersection invariant -/

theorem foldlM_preserves {α σ : Type} (step : σ → α → Except PyErr σ) (P : σ → Prop)
    (hstep : ∀ s a s', step s a = .ok s' → P s → P s') :
    ∀ (l : List α) (s0 sf : σ), l.foldlM step s0 = .ok sf → P s0 → P sf := by
  intro l
  induction l with
  | nil =>
    intro s0 sf h hP
    rw [List.foldlM_nil] at h
    cases h
    exact hP
  | cons a rest ih =>
    intro s0 sf h hP
    rw [List.foldlM_cons] at h
    obtain ⟨s1, h1, hrest⟩ := except_bind_eq_ok h
    exact ih s1 sf hrest (hstep s0 a s1 h1 hP)

theorem entityTurnStep_preserves (si : List String) (m m' : EMap) (t : Turn)
    (hok : entityTurnStep si m t = .ok m') (sv it : String) (M0 : List String)
    (hQ : ∃ S, alGet2 m sv it = some S ∧ ∀ x ∈ S, x ∈ M0) :
    ∃ S, alGet2 m' sv it = some S ∧ ∀ x ∈ S, x ∈ M0 := by
  obtain ⟨S, hS, hsub⟩ := hQ
  unfold entityTurnStep at hok
  cases hhd : t.frames.head? with
  | none =>
    rw [hhd] at hok
    cases hok
  | some frame =>
    rw [hhd] at hok
    dsimp only at hok
    cases hsc : frame.service_call with
    | none =>
      rw [hsc] at hok
      dsimp only at hok
      cases hok
      exact ⟨S, hS, hsub⟩
    | some call =>
      rw [hsc] at hok
      dsimp only at hok
      by_cases hc : call.method ∈ si ∧ frame.service_results ≠ []
      · rw [if_pos hc] at hok
        cases hok
        have hSsplit : ∃ inner, alGet m sv = some inner ∧ alGet inner it = some S := by
          unfold alGet2 at hS
          cases hov : alGet m sv with
          | none =>
            rw [hov] at hS
            cases hS
          | some inner =>
            rw [hov] at hS
            exact ⟨inner, rfl, hS⟩
        obtain ⟨inner, hov, hinner⟩ := hSsplit
        by_cases hsv : sv = frame.service
        · subst hsv
          unfold alGet2
          rw [alGet_alUpd, if_pos rfl, hov]
          dsimp only [Option.getD_some]
          by_cases hit : it = call.method
          · subst hit
            rw [hinner]
            refine ⟨pyInter S (mentionedSlots frame), ?_, ?_⟩
            · rw [alGet_alSet, if_pos rfl]
            · intro x hx
              exact hsub x (mem_pyInter.mp hx).1
          · cases hprev : alGet inner call.method with
            | some prev =>
              dsimp only
              refine ⟨S, ?_, hsub⟩
              rw [alGet_alSet, if_neg hit]
              exact hinner
            | none =>
              dsimp only
              refine ⟨S, ?_, hsub⟩
              rw [alGet_alUpd, if_neg hit]
              exact hinner
        · unfold alGet2
          rw [alGet_alUpd, if_neg hsv, hov]
          exact ⟨S, hinner, hsub⟩
      · rw [if_neg hc] at hok
        cases hok
        exact ⟨S, hS, hsub⟩

theorem entityTurnStep_establishes (si : List String) (m m' : EMap) (t : Turn)
    (hok : entityTurnStep si m t = .ok m') (frame : Frame)
    (hfr : t.frames.head? = some frame) (call : ServiceCall)
    (hcall : frame.service_call = some call) (hsi : call.method ∈ si)
    (hres : frame.service_results ≠ []) :
    ∃ S, alGet2 m' frame.service call.method = some S ∧
      ∀ x ∈ S, x ∈ mentionedSlots frame := by
  unfold entityTurnStep at hok
  rw [hfr] at hok
  dsimp only at hok
  rw [hcall] at hok
  dsimp only at hok
  rw [if_pos ⟨hsi, hres⟩] at hok
  cases hok
  unfold alGet2
  rw [alGet_alUpd, if_pos rfl]
  dsimp only [Option.getD_some]
  cases hprev : alGet ((alGet m frame.service).getD []) call.method with
  | some prev =>
    dsimp only
    refine ⟨pyInter prev (mentionedSlots frame), ?_, ?_⟩
    · rw [alGet_alSet, if_pos rfl]
    · intro x hx
      exact (mem_pyInter.mp hx).2
  | none =>
    dsimp only
    refine ⟨mentionedSlots frame, ?_, fun x hx => hx⟩
    rw [alGet_alUpd, if_pos rfl]

theorem entityDialStep_preserves (si : List String) (m m' : EMap) (d : Dialogue)
    (hok : entityDialStep si m d = .ok m') (sv it : String) (M0 : List String)
    (hQ : ∃ S, alGet2 m sv it = some S ∧ ∀ x ∈ S, x ∈ M0) :
    ∃ S, alGet2 m' sv it = some S ∧ ∀ x ∈ S, x ∈ M0 := by
  unfold entityDialStep at hok
  exact foldlM_preserves _ _ (fun mm t mm' h hP =>
    entityTurnStep_preserves si mm mm' t h sv it M0 hP) _ _ _ hok hQ

theorem entityFileStep_preserves (c : Corpus) (si : List String)
    (m m' : EMap) (entry : String × List String)
    (hok : (do
        let pairs ← file_iterator c entry.1 entry.2
        pairs.foldlM (fun (mm : EMap) (p : String × Dialogue) =>
          entityDialStep si mm p.2) m) = .ok m')
    (sv it : String) (M0 : List String)
    (hQ : ∃ S, alGet2 m sv it = some S ∧ ∀ x ∈ S, x ∈ M0) :
    ∃ S, alGet2 m' sv it = some S ∧ ∀ x ∈ S, x ∈ M0 := by
  obtain ⟨pairs, _, hfold⟩ := except_bind_eq_ok hok
  exact foldlM_preserves _ _ (fun mm p mm' h hP =>
    entityDialStep_preserves si mm mm' p.2 h sv it M0 hP) _ _ _ hfold hQ

/-- C1, amended: within one split, for every dialogue classified `search` or
`mixed_intent`, and every scanned system turn whose first frame records a
service call to a search intent with a non-empty results list, the per-split
entity-slot set `_get_entity_slots` computes for that `(service, intent)`
pair exists and is a subset of that frame's mentioned slots.  (The
counterexample shows the property does not survive the cross-split union of
`get_entity_slots_map`.) -/
theorem C1_amended (c : Corpus) (sp : SplitName) (m : EMap)
    (hwf : CorpusWF c)
    (hok : _get_entity_slots c sp = .ok m)
    (f : DialFile) (hf : f ∈ c.files sp) (d : Dialogue) (hd : d ∈ f.dialogues)
    (hclass : classify_dialogue (get_intents_by_type c) d = "search" ∨
              classify_dialogue (get_intents_by_type c) d = "mixed_intent")
    (turn : Turn) (ht : turn ∈ iterTurns d false true)
    (frame : Frame) (hfr : turn.frames.head? = some frame)
    (call : ServiceCall) (hcall : frame.service_call = some call)
    (hsi : call.method ∈ pySetOf (get_intents_by_type c).search)
    (hres : frame.service_results ≠ []) :
    ∃ S, alGet2 m frame.service call.method = some S ∧
      ∀ x ∈ S, x ∈ mentionedSlots frame := by
  obtain ⟨hwf1, hwf2⟩ := hwf
  unfold _get_entity_slots at hok
  obtain ⟨F1, hF1, hok⟩ := except_bind_eq_ok hok
  obtain ⟨F2, hF2, hok⟩ := except_bind_eq_ok hok
  dsimp only at hok
  have hF1v : F1 = (split_iterator_all c sp).foldl
      (filterStep (get_intents_by_type c).transactional (get_intents_by_type c).search
        true true) [] := by
    unfold filter_by_intent_type at hF1
    rw [if_neg (by simp)] at hF1
    exact (Except.ok.inj hF1).symm
  have hF2v : F2 = (split_iterator_all c sp).foldl
      (filterStep (get_intents_by_type c).transactional (get_intents_by_type c).search
        false true) [] := by
    unfold filter_by_intent_type at hF2
    rw [if_neg (by simp)] at hF2
    exact (Except.ok.inj hF2).symm
  have hnd2 : (F2.map (fun p => p.1)).Nodup := by
    rw [hF2v]
    exact filterFold_keys_nodup _ _ _ _ _ _ (by simp)
  have hpair : (f.path, d) ∈ split_iterator_all c sp :=
    (mem_split_iterator_all c sp (f.path, d)).mpr ⟨f, hf, rfl, hd⟩
  have hsel := classified_cond c d hclass
  have hmerged : d.dialogue_id ∈ (alGet (mergeFiltered F1 F2) f.path).getD [] := by
    rw [mem_mergeFiltered F2 F1 f.path d.dialogue_id hnd2]
    rcases hsel with hsel | hsel
    · right
      rw [hF2v, mem_filterFold]
      exact Or.inr ⟨(f.path, d), hpair, rfl, rfl, hsel⟩
    · left
      rw [hF1v, mem_filterFold]
      exact Or.inr ⟨(f.path, d), hpair, rfl, rfl, hsel⟩
  obtain ⟨V, hVsome⟩ : ∃ V, alGet (mergeFiltered F1 F2) f.path = some V := by
    cases hov : alGet (mergeFiltered F1 F2) f.path with
    | none =>
      rw [hov] at hmerged
      simp at hmerged
    | some V => exact ⟨V, rfl⟩
  have hdV : d.dialogue_id ∈ V := by
    rw [hVsome] at hmerged
    simpa using hmerged
  have hentry : (f.path, V) ∈ mergeFiltered F1 F2 := alGet_mem _ _ _ hVsome
  have hVsub : ∀ x ∈ V, ∃ j : Fin f.dialogues.length,
      (f.dialogues.get j).dialogue_id = x := by
    intro x hx
    have hx' : x ∈ (alGet (mergeFiltered F1 F2) f.path).getD [] := by
      rw [hVsome]
      simpa using hx
    rw [mem_mergeFiltered F2 F1 f.path x hnd2] at hx'
    have hxp : ∃ p ∈ split_iterator_all c sp, p.1 = f.path ∧ p.2.dialogue_id = x := by
      rcases hx' with hx' | hx'
      · rw [hF1v, mem_filterFold] at hx'
        rcases hx' with hx' | ⟨p, hp, h1, h2, h3⟩
        · rw [alGet_nil] at hx'
          simp at hx'
        · exact ⟨p, hp, h1, h2⟩
      · rw [hF2v, mem_filterFold] at hx'
        rcases hx' with hx' | ⟨p, hp, h1, h2, h3⟩
        · rw [alGet_nil] at hx'
          simp at hx'
        · exact ⟨p, hp, h1, h2⟩
    obtain ⟨p, hp, hp1, hp2⟩ := hxp
    obtain ⟨f', hf', hpf, hpd⟩ := (mem_split_iterator_all c sp p).mp hp
    have hff : f' = f := by
      refine List.inj_on_of_nodup_map hwf2 (mem_allFiles c sp f' hf')
        (mem_allFiles c sp f hf) ?_
      rw [← hpf, hp1]
    rw [hff] at hpd
    obtain ⟨j, hj⟩ := List.mem_iff_get.mp hpd
    refine ⟨j, ?_⟩
    rw [hj, hp2]
  have hFwf : FileWF f := hwf1 f (mem_allFiles c sp f hf)
  obtain ⟨pairs, hpairs, hdpair⟩ := file_iterator_file_yields f hFwf V hVsub d hd hdV
  have hfi : file_iterator c f.path V = .ok pairs := by
    unfold file_iterator
    rw [findFile_self c hwf2 f (mem_allFiles c sp f hf)]
    exact hpairs
  obtain ⟨L1, L2, hsplit⟩ := List.append_of_mem hentry
  rw [hsplit, List.foldlM_append] at hok
  obtain ⟨m1, hm1, hok⟩ := except_bind_eq_ok hok
  rw [List.foldlM_cons] at hok
  obtain ⟨m2, hm2, hok⟩ := except_bind_eq_ok hok
  dsimp only at hm2
  rw [hfi, except_bind_ok] at hm2
  obtain ⟨P1, P2, hps⟩ := List.append_of_mem hdpair
  rw [hps, List.foldlM_append] at hm2
  obtain ⟨mA, hmA, hm2⟩ := except_bind_eq_ok hm2
  rw [List.foldlM_cons] at hm2
  obtain ⟨mB, hmB, hm2⟩ := except_bind_eq_ok hm2
  dsimp only at hmB
  unfold entityDialStep at hmB
  obtain ⟨T1, T2, hts⟩ := List.append_of_mem ht
  rw [hts, List.foldlM_append] at hmB
  obtain ⟨mC, hmC, hmB⟩ := except_bind_eq_ok hmB
  rw [List.foldlM_cons] at hmB
  obtain ⟨mD, hmD, hmB⟩ := except_bind_eq_ok hmB
  have hQ := entityTurnStep_establishes _ _ _ _ hmD frame hfr call hcall hsi hres
  have hQ2 := foldlM_preserves _ _ (fun mm t mm' h hP =>
    entityTurnStep_preserves _ mm mm' t h frame.service call.method
      (mentionedSlots frame) hP) T2 mD mB hmB hQ
  have hQ3 := foldlM_preserves _ _ (fun mm p mm' h hP =>
    entityDialStep_preserves _ mm mm' p.2 h frame.service call.method
      (mentionedSlots frame) hP) P2 mB m2 hm2 hQ2
  exact foldlM_preserves _ _ (fun mm e mm' h hP =>
    entityFileStep_preserves c _ mm mm' e h frame.service call.method
      (mentionedSlots frame) hP) L2 m2 m hok hQ3

/-- C1, amended, witness: in `cexA`'s train split the per-split entity-slot
set for `(S, FindX)` is a subset of `dialA1`'s mentioned slots. -/
theorem C1_witness :
    ∃ S, alGet2 [("S", [("FindX", ["a"])])] "S" "FindX" = some S ∧
      ∀ x ∈ S, x ∈ mentionedSlots (sysCallFrame "S" "FindX" ["a"]) :=
  C1_amended cexA .train [("S", [("FindX", ["a"])])] (by decide) (by decide)
    ⟨"./train/dialogues_001.json", [dialA1]⟩ (by decide) dialA1 (by decide)
    (Or.inl (by decide)) (sysCallTurn "S" "FindX" ["a"]) (by decide)
    (sysCallFrame "S" "FindX" ["a"]) (by decide) ⟨"FindX", []⟩ (by decide)
    (by decide) (by decide)

/-! ## Claim C9 (InvalidArgument conditions) -/

/-- C9: with both speaker flags false the turn iterator fails immediately with
a `ValueError`, and with both intent-type flags false `filter_by_intent_type`
fails immediately with a `ValueError`, producing no record in either case. -/
theorem C9_invalid_argument :
    (∀ d : Dialogue, dialogue_iterator d false false =
      .error (.valueError "At least a speaker needs to be specified!"))
    ∧ (∀ (c : Corpus) (split : SplitName), filter_by_intent_type c split false false =
      .error (.valueError "At least one intent type must be specified")) :=
  ⟨fun _ => rfl, fun _ _ => rfl⟩

end SGD
